import Mathlib

/-!
Verification of the SOPHIA photopion event generator (C++ translation,
src/sophia_interface.cpp) against its natural-language specification.

The development shallowly embeds the routines the claims are about:

* double-precision arithmetic is embedded as exact arithmetic (rationals
  where the routine only adds, subtracts, multiplies, divides and compares,
  reals where it calls exp, sqrt, pow with non-integer exponents);
* the shared mutable state (the RANMAR generator state, the decay-flag
  table IDB) is passed explicitly;
* routines whose result depends on the random stream take the stream as an
  explicit argument, one draw per RNDM()/RLU() call in call order;
* the static physics tables (declared in the header, which is not part of
  src/) are modelled from the specification where a claim needs them; each
  such definition carries a doc comment starting with "Modelled from the
  spec:".
-/

namespace Sophia

/-! ### The shared uniform random generator RLU / RNDM
(src/sophia_interface.cpp lines 9228-9287 and 2868-2873).

All quantities the generator manipulates are integer multiples of 2^-24,
so `double` arithmetic is exact here and the embedding over rationals is
faithful bit for bit. -/

/-- The value 1.0 in units of 2^-24.  Every quantity the generator stores
in `RRLU` and every candidate `RUNI` is an integer multiple of 2^-24, so
the table is embedded by its integer numerators at this scale. -/
def rluOne : ℤ := 16777216

/-- State of the RANMAR generator: the scalars of `MRLU` and the lag table
`RRLU` (entries scaled by 2^24).  `mrlu0` is the seed, `mrlu1` the
lazily-set initialization flag, `mrlu2` the draw counter,
`mrlu3`/`mrlu4` the two lag indices. -/
structure RluState where
  mrlu0 : ℕ
  mrlu1 : ℕ
  mrlu2 : ℕ
  mrlu3 : ℕ
  mrlu4 : ℕ
  rrlu : ℕ → ℤ

/-- Pointwise update of the lag table. -/
def updTab (f : ℕ → ℤ) (i : ℕ) (v : ℤ) : ℕ → ℤ :=
  fun j => if j = i then v else f j

/-- State of the inner bit loop of the seeding pass: the four congruential
registers `I J K L` together with the accumulator `S` and the weight `T`
(both scaled by 2^24: `S = 0` and `T = 0.5` become 0 and 2^23). -/
structure SeedRegs where
  i : ℕ
  j : ℕ
  k : ℕ
  l : ℕ
  s : ℤ
  t : ℤ

/-- One step of the inner loop (`JJ` loop, 24 iterations) of the seeding
pass of `RLU`: `T` is halved each step, so at scale 2^24 it runs through
2^23, 2^22, ..., 2^0 and all arithmetic is exact. -/
def rluSeedStep (r : SeedRegs) : SeedRegs :=
  let m := ((r.i * r.j) % 179 * r.k) % 179
  let l := (53 * r.l + 1) % 169
  let s := if (l * m) % 64 ≥ 32 then r.s + r.t else r.s
  { i := r.j, j := r.k, k := m, l := l, s := s, t := r.t / 2 }

/-- One entry of the lag table: run the inner loop 24 times starting from
`S = 0`, `T = 1/2`; returns the updated registers and the table entry. -/
def rluSeedEntry (i j k l : ℕ) : SeedRegs :=
  (List.range 24).foldl (fun r _ => rluSeedStep r)
    { i := i, j := j, k := k, l := l, s := 0, t := 8388608 }

/-- The full seeding pass (`II` loop, entries `RRLU[0..96]`). -/
def rluSeedTable (seed : ℕ) : ℕ → ℤ :=
  let ij := (seed / 30082) % 31329
  let kl := seed % 30082
  let i0 := (ij / 177) % 177 + 2
  let j0 := ij % 177 + 2
  let k0 := (kl / 169) % 178 + 1
  let l0 := kl % 169
  let st := (List.range 97).foldl
    (fun (st : (ℕ × ℕ × ℕ × ℕ) × (ℕ → ℤ)) ii =>
      let r := rluSeedEntry st.1.1 st.1.2.1 st.1.2.2.1 st.1.2.2.2
      ((r.i, r.j, r.k, r.l), updTab st.2 ii r.s))
    ((i0, j0, k0, l0), fun _ => 0)
  st.2

/-- Lazy initialization of the generator (lines 9232-9262).  The inner
guard re-installs the default seed 19780503 when the call came through
`RNDM` and the seed slot reads 0; since the seed slot is statically
initialized to 19780503 and no code outside `RLU` writes `MRLU`, a fresh
process seeds from 19780503 via either call route.  The three carry
constants are `362436*TWOM24`, `7654321*TWOM24` and `16777213*TWOM24`,
i.e. the scaled numerators 362436, 7654321 and 16777213. -/
def rluInit (isCalledByRNDM : Bool) (st : RluState) : RluState :=
  if st.mrlu1 = 0 then
    let seed := if isCalledByRNDM ∧ st.mrlu0 = 0 then 19780503 else st.mrlu0
    let tab0 := rluSeedTable seed
    let tab1 := updTab tab0 97 362436
    let tab2 := updTab tab1 98 7654321
    let tab3 := updTab tab2 99 16777213
    { mrlu0 := seed, mrlu1 := 1, mrlu2 := 0, mrlu3 := 97, mrlu4 := 33, rrlu := tab3 }
  else st

/-- One pass of the generation loop body (lines 9267-9277): produces a
candidate `RUNI` (scaled by 2^24) and the updated state; adding 1.0
becomes adding `rluOne`. -/
def rluStep (st : RluState) : ℤ × RluState :=
  let u0 := st.rrlu (st.mrlu3 - 1) - st.rrlu (st.mrlu4 - 1)
  let u1 := if u0 < 0 then u0 + rluOne else u0
  let tab1 := updTab st.rrlu (st.mrlu3 - 1) u1
  let m3 := if st.mrlu3 - 1 = 0 then 97 else st.mrlu3 - 1
  let m4 := if st.mrlu4 - 1 = 0 then 97 else st.mrlu4 - 1
  let c0 := tab1 97 - tab1 98
  let c1 := if c0 < 0 then c0 + tab1 99 else c0
  let tab2 := updTab tab1 97 c1
  let u2 := u1 - c1
  let u3 := if u2 < 0 then u2 + rluOne else u2
  (u3, { st with mrlu3 := m3, mrlu4 := m4, rrlu := tab2 })

/-- The `do ... while (RUNI <= 0 || RUNI >= 1.)` generation loop, with a
fuel bound standing in for the (unbounded) C++ loop; at scale 2^24 the
exit condition keeps `0 < RUNI < rluOne`. -/
def rluLoop : ℕ → RluState → Option (ℤ × RluState)
  | 0, _ => none
  | fuel + 1, st =>
    let p := rluStep st
    if p.1 ≤ 0 ∨ rluOne ≤ p.1 then rluLoop fuel p.2 else some p

/-- Counter update after a successful draw (lines 9281-9285). -/
def rluCount (st : RluState) : RluState :=
  if st.mrlu2 + 1 = 1000000000 then { st with mrlu1 := st.mrlu1 + 1, mrlu2 := 0 }
  else { st with mrlu2 := st.mrlu2 + 1 }

/-- `RLU(isCalledByRNDM)`: lazy init, generation loop, counter update.
The returned scaled numerator `n` stands for the double `n * 2^-24`. -/
def RLU (isCalledByRNDM : Bool) (fuel : ℕ) (st : RluState) : Option (ℤ × RluState) :=
  match rluLoop fuel (rluInit isCalledByRNDM st) with
  | none => none
  | some (r, st1) => some (r, rluCount st1)

/-- `RNDM()` (lines 2868-2873): `RLU` with the called-by-RNDM flag set. -/
def RNDM (fuel : ℕ) (st : RluState) : Option (ℤ × RluState) :=
  RLU true fuel st

/-- The scaled numerator produced by a call, discarding the state. -/
def rluValueNum (isCalledByRNDM : Bool) (fuel : ℕ) (st : RluState) : Option ℤ :=
  Option.map Prod.fst (RLU isCalledByRNDM fuel st)

/-- The returned double itself: the scaled numerator divided by 2^24. -/
def rluValue (isCalledByRNDM : Bool) (fuel : ℕ) (st : RluState) : Option ℚ :=
  Option.map (fun n => (n : ℚ) / 16777216) (rluValueNum isCalledByRNDM fuel st)

/-- The generator state at program start, before any call: the static
initializers `MRLU[6] = {19780503, 0, 0, 97, 33, 0}` and
`RRLU[100] = {0.}` (lines 9226-9227).  The seed slot `MRLU[0]` already
holds the default seed 19780503, and `MRLU[1] = 0` marks the generator
as not yet initialized. -/
def freshRluState : RluState :=
  { mrlu0 := 19780503, mrlu1 := 0, mrlu2 := 0, mrlu3 := 97, mrlu4 := 33,
    rrlu := fun _ => 0 }

theorem rluLoop_mem_Ioo {fuel : ℕ} {st : RluState} {p : ℤ × RluState}
    (h : rluLoop fuel st = some p) : 0 < p.1 ∧ p.1 < rluOne := by
  induction fuel generalizing st with
  | zero => simp [rluLoop] at h
  | succ n ih =>
    rw [rluLoop] at h
    by_cases hc : (rluStep st).1 ≤ 0 ∨ rluOne ≤ (rluStep st).1
    · rw [if_pos hc] at h
      exact ih h
    · rw [if_neg hc] at h
      push_neg at hc
      cases h
      exact hc

/-! ### DECPAR_zero boost-back step (lines 1337-1350)

The `MBST == 1` block of `DECPAR_zero` is embedded per particle.  The
line that would apply the boost to the spatial components (line 1346)
is an expression statement whose value is discarded, so the embedding
leaves the spatial components unchanged. -/

/-- A 5-momentum entry: px, py, pz, E, mass. -/
structure Vec5 where
  x : ℚ
  y : ℚ
  z : ℚ
  e : ℚ
  m : ℚ
  deriving DecidableEq

/-- The boost-back block of `DECPAR_zero` exactly as in the source: line
1346 computes `P_out[J][I] + GA*(GA*BEP/(1.+GA) + P_out[3][I])*BE[J]` and
discards the result, so only the energy component is updated. -/
def decparZeroBoostBack (p0 pin : Vec5) : Vec5 :=
  let bx := p0.x / p0.e
  let by' := p0.y / p0.e
  let bz := p0.z / p0.e
  let ga := p0.e / p0.m
  let bep := bx * pin.x + by' * pin.y + bz * pin.z
  { pin with e := ga * (pin.e + bep) }

/-- Modelled from the spec: the mathematically intended accumulating boost
that the assignment-free line 1346 of `DECPAR_zero` was meant to perform
(and that the sibling routine `DECPAR_nonZero` performs at line 1547 with
`+=`).  Spatial components accumulate `GA*(GA*BEP/(1+GA) + E)*BE[J]`. -/
def decparZeroBoostBackIntended (p0 pin : Vec5) : Vec5 :=
  let bx := p0.x / p0.e
  let by' := p0.y / p0.e
  let bz := p0.z / p0.e
  let ga := p0.e / p0.m
  let bep := bx * pin.x + by' * pin.y + bz * pin.z
  { x := pin.x + ga * (ga * bep / (1 + ga) + pin.e) * bx
    y := pin.y + ga * (ga * bep / (1 + ga) + pin.e) * by'
    z := pin.z + ga * (ga * bep / (1 + ga) + pin.e) * bz
    e := ga * (pin.e + bep)
    m := pin.m }

/-! ### The charged-pion stability flags (lines 88-92, 1173)

`IDB` is the per-code instability table; `sophiaevent` zeroes entries 5, 6
and 7 (pi0, pi+, pi-) when `declareChargedPionsStable` is set, and no
statement anywhere in the translation unit writes to `IDB` otherwise. -/

/-- The effect of one `sophiaevent` call on the `IDB` table (lines 88-92):
entries 5, 6, 7 are zeroed when the flag is set, nothing else is written. -/
def applyPionStableFlag (flag : Bool) (idb : ℕ → ℤ) : ℕ → ℤ :=
  fun i => if flag ∧ (i = 5 ∨ i = 6 ∨ i = 7) then 0 else idb i

/-- The decay guard of `DECSIB` (line 1173): particle code `L` is decayed
precisely when `IDB[|L| - 1] > 0`. -/
def decsibWillDecay (idb : ℕ → ℤ) (L : ℤ) : Bool :=
  decide (0 < idb (L.natAbs - 1))

/-- The `IDB` table after a sequence of further `sophiaevent` calls with
the given flags. -/
def idbAfterCalls (idb : ℕ → ℤ) (flags : List Bool) : ℕ → ℤ :=
  flags.foldl (fun st f => applyPionStableFlag f st) idb

theorem idbAfterCalls_keeps_zero {idb : ℕ → ℤ} {flags : List Bool} {i : ℕ}
    (hi : i = 5 ∨ i = 6 ∨ i = 7) (h0 : idb i = 0) :
    idbAfterCalls idb flags i = 0 := by
  induction flags generalizing idb with
  | nil => exact h0
  | cons f fs ih =>
    refine ih ?_
    simp only [applyPionStableFlag]
    rcases hi with h | h | h <;> subst h <;> by_cases hf : f = true <;> simp [hf, h0]

/-! ### The multiparticle retry loop of gamma_h (lines 604-612, 658-664,
815-822)

The body of the `do { ... } while (repeat100)` loop is a stochastic
string-construction pass; each pass either produces an event or is
rejected (in particular when `lund_frag` signals failure by a negative
particle count `np`).  The pass body is abstracted into a function from
the attempt number to an optional result; the retry counter and the cap
are embedded exactly. -/

/-- One attempt of the multiparticle branch: pass `k` is rejected exactly
when the fragmentation routine left a negative particle count (lines
658-664 and 815-822), otherwise it yields its event. -/
def gammaHAttempt {α : Type} (npAfterFrag : ℕ → ℤ) (payload : ℕ → α) (k : ℕ) : Option α :=
  if npAfterFrag k < 0 then none else some (payload k)

/-- The retry loop: `itry` is incremented at the top of each pass and
`itry > 50` throws (lines 609-612).  `fuel` is the number of passes still
allowed before the throw; `k` is the current value of `itry`. -/
def gammaHRetryAux {α : Type} (attempt : ℕ → Option α) : ℕ → ℕ → Except String α
  | 0, _ => .error "gamma_h: more than 50 internal rejections"
  | fuel + 1, k =>
    match attempt k with
    | some a => .ok a
    | none => gammaHRetryAux attempt fuel (k + 1)

/-- The multiparticle-production retry loop of `gamma_h`: attempts are
numbered 1..50, the 51st entry into the loop head throws. -/
def gammaHMultiLoop {α : Type} (attempt : ℕ → Option α) : Except String α :=
  gammaHRetryAux attempt 50 1

theorem gammaHRetryAux_all_fail {α : Type} (attempt : ℕ → Option α) :
    ∀ fuel k, (∀ j, k ≤ j → j < k + fuel → attempt j = none) →
    gammaHRetryAux attempt fuel k = .error "gamma_h: more than 50 internal rejections" := by
  intro fuel
  induction fuel with
  | zero => intro k _; rfl
  | succ n ih =>
    intro k h
    have hk : attempt k = none := h k le_rfl (by omega)
    rw [gammaHRetryAux, hk]
    exact ih (k + 1) fun j hj1 hj2 => h j (by omega) (by omega)

theorem gammaHRetryAux_first_success {α : Type} (attempt : ℕ → Option α) :
    ∀ fuel k j a, k ≤ j → j < k + fuel → (∀ i, k ≤ i → i < j → attempt i = none) →
    attempt j = some a → gammaHRetryAux attempt fuel k = .ok a := by
  intro fuel
  induction fuel with
  | zero => intro k j a h1 h2; omega
  | succ n ih =>
    intro k j a h1 h2 hnone hj
    rw [gammaHRetryAux]
    rcases Nat.eq_or_lt_of_le h1 with rfl | hlt
    · rw [hj]
    · rw [hnone k le_rfl hlt]
      exact ih (k + 1) j a (by omega) (by omega) (fun i hi1 hi2 => hnone i (by omega) hi2) hj

/-! ### probangle (lines 2458-2498)

The function ends in a branch that constructs a `std::runtime_error`
without throwing it and falls off the end of the function; that branch is
embedded as `none`. -/

/-- Angular probability density for resonance `IRES` and incident nucleon
`L0` at cosine `z`, exactly mirroring the if-chain of the source; `none`
is the defensive dead branch at the end. -/
noncomputable def probangle (IRES L0 : ℤ) (z : ℝ) : Option ℝ :=
  if IRES = 4 ∨ IRES = 5 ∨ IRES = 2 then some 0.5
  else if IRES = 1 then some (0.636263 - 0.408790 * z * z)
  else if IRES = 3 ∧ L0 = 14 then some (0.673669 - 0.521007 * z * z)
  else if IRES = 3 ∧ L0 = 13 then some (0.739763 - 0.719288 * z * z)
  else if IRES = 6 ∧ L0 = 14 then
    some (0.254005 + 1.427918 * (z * z) - 1.149888 * (z * z) * (z * z))
  else if IRES = 6 ∧ L0 = 13 then
    some (0.189855 + 2.582610 * (z * z) - 2.753625 * (z * z) * (z * z))
  else if IRES = 7 then some (0.450238 + 0.149285 * z * z)
  else if IRES = 8 then some (0.230034 + 1.859396 * (z * z) - 1.749161 * (z * z) * (z * z))
  else if IRES = 9 then
    some (0.397430 - 1.498240 * (z * z) + 5.880814 * (z * z) * (z * z) -
      4.019252 * (z * z) * (z * z) * (z * z))
  else none

/-- Claim C7: for every resonance index 1..9, nucleon type 13 or 14 and
cosine z in the unit interval, `probangle` returns a value from one of
its enumerated branches; the trailing defensive branch is unreachable. -/
theorem c7_probangle_total (IRES L0 : ℤ) (z : ℝ) (h1 : 1 ≤ IRES) (h2 : IRES ≤ 9)
    (hL : L0 = 13 ∨ L0 = 14) (_hz1 : -1 ≤ z) (_hz2 : z ≤ 1) :
    (probangle IRES L0 z).isSome := by
  unfold probangle
  interval_cases IRES <;> rcases hL with rfl | rfl <;> simp

theorem c7_witness : (probangle 1 13 0).isSome :=
  c7_probangle_total 1 13 0 (by norm_num) (by norm_num) (Or.inl rfl) (by norm_num) (by norm_num)

/-- Claim C9: every value the shared generator returns lies strictly
between 0 and 1 (endpoints excluded), and the single shared state is
lazily seeded on first use with the fixed default seed 19780503 -- the
statically initialized seed slot -- via either call route (`RNDM` or a
direct `RLU` call): the first call finds the seeded-marker `MRLU[1] = 0`
and initializes from seed 19780503 in both cases. -/
theorem c9_rlu_range_and_default_seed :
    (∀ (b : Bool) (fuel : ℕ) (st : RluState) (r : ℚ),
      rluValue b fuel st = some r → 0 < r ∧ r < 1) ∧
    (∀ b : Bool, (rluInit b freshRluState).mrlu0 = 19780503 ∧
      (rluInit b freshRluState).mrlu1 = 1) := by
  constructor
  · intro b fuel st r h
    unfold rluValue rluValueNum RLU at h
    cases hl : rluLoop fuel (rluInit b st) with
    | none => rw [hl] at h; simp at h
    | some p =>
      have hp := rluLoop_mem_Ioo hl
      rw [hl] at h
      simp only [Option.map_some'] at h
      have hr : r = (p.1 : ℚ) / 16777216 := by
        cases h; rfl
      rw [hr]
      constructor
      · exact div_pos (by exact_mod_cast hp.1) (by norm_num)
      · rw [div_lt_one (by norm_num)]
        have := hp.2
        rw [rluOne] at this
        exact_mod_cast this
  · intro b
    cases b <;> exact ⟨rfl, rfl⟩

/-- An already-initialized generator state used to witness that calls do
return values: lag table zero except entry 96. -/
def c9WitnessState : RluState :=
  { mrlu0 := 0, mrlu1 := 1, mrlu2 := 0, mrlu3 := 97, mrlu4 := 33,
    rrlu := fun i => if i = 96 then 9000000 else 0 }

theorem c9_witness :
    (0 : ℚ) < 9000000 / 16777216 ∧ (9000000 : ℚ) / 16777216 < 1 :=
  c9_rlu_range_and_default_seed.1 true 1 c9WitnessState (9000000 / 16777216)
    (by rw [rluValue, show rluValueNum true 1 c9WitnessState = some 9000000 from by decide]
        norm_num)

/-- Claim C8: the boost-back block of `DECPAR_zero` leaves the spatial
momentum components of every decay product unchanged -- the line that
computes the boost contribution discards its result -- while the
accumulating boost described by the claim (and performed by
`DECPAR_nonZero`) would change them, as the concrete input below shows. -/
theorem c8_boostback_noop :
    (∀ p0 pin : Vec5, (decparZeroBoostBack p0 pin).x = pin.x ∧
      (decparZeroBoostBack p0 pin).y = pin.y ∧ (decparZeroBoostBack p0 pin).z = pin.z) ∧
    (decparZeroBoostBack ⟨0, 0, 3, 5, 4⟩ ⟨1, 0, 0, 2, 1⟩).z = 0 ∧
    (decparZeroBoostBackIntended ⟨0, 0, 3, 5, 4⟩ ⟨1, 0, 0, 2, 1⟩).z = 3 / 2 ∧
    decparZeroBoostBack ⟨0, 0, 3, 5, 4⟩ ⟨1, 0, 0, 2, 1⟩ ≠
      decparZeroBoostBackIntended ⟨0, 0, 3, 5, 4⟩ ⟨1, 0, 0, 2, 1⟩ := by
  have hb : (decparZeroBoostBack ⟨0, 0, 3, 5, 4⟩ ⟨1, 0, 0, 2, 1⟩).z = 0 := rfl
  have hi : (decparZeroBoostBackIntended ⟨0, 0, 3, 5, 4⟩ ⟨1, 0, 0, 2, 1⟩).z = 3 / 2 := by
    show (0 : ℚ) + 5 / 4 * (5 / 4 * (0 / 5 * 1 + 0 / 5 * 0 + 3 / 5 * 0) / (1 + 5 / 4) + 2) *
      (3 / 5) = 3 / 2
    norm_num
  refine ⟨fun _ _ => ⟨rfl, rfl, rfl⟩, hb, hi, fun h => ?_⟩
  rw [h, hi] at hb
  norm_num at hb

/-- Claim C10: one call with `declareChargedPionsStable = true` zeroes the
instability flags of pi0, pi+, pi- and nothing ever restores them, so
every subsequent call -- with either flag value -- still treats the three
pions (codes 6, 7, 8) as stable in `DECSIB`. -/
theorem c10_pion_stability_persists (idb : ℕ → ℤ) (flags : List Bool) :
    idbAfterCalls (applyPionStableFlag true idb) flags 5 = 0 ∧
    idbAfterCalls (applyPionStableFlag true idb) flags 6 = 0 ∧
    idbAfterCalls (applyPionStableFlag true idb) flags 7 = 0 ∧
    decsibWillDecay (idbAfterCalls (applyPionStableFlag true idb) flags) 6 = false ∧
    decsibWillDecay (idbAfterCalls (applyPionStableFlag true idb) flags) 7 = false ∧
    decsibWillDecay (idbAfterCalls (applyPionStableFlag true idb) flags) 8 = false := by
  have h5 : idbAfterCalls (applyPionStableFlag true idb) flags 5 = 0 :=
    idbAfterCalls_keeps_zero (Or.inl rfl) (by simp [applyPionStableFlag])
  have h6 : idbAfterCalls (applyPionStableFlag true idb) flags 6 = 0 :=
    idbAfterCalls_keeps_zero (Or.inr (Or.inl rfl)) (by simp [applyPionStableFlag])
  have h7 : idbAfterCalls (applyPionStableFlag true idb) flags 7 = 0 :=
    idbAfterCalls_keeps_zero (Or.inr (Or.inr rfl)) (by simp [applyPionStableFlag])
  refine ⟨h5, h6, h7, ?_, ?_, ?_⟩ <;>
    simp [decsibWillDecay, h5, h6, h7]

/-- Claim C6: in the multiparticle branch of `gamma_h`, a pass whose
fragmentation leaves `np < 0` is retried; the first pass with `np >= 0`
yields its event and no partial event from a failed pass is returned; and
once all 50 allowed passes have failed the loop raises the fatal error
instead of looping forever. -/
theorem c6_gammaH_retry_cap {α : Type} (np : ℕ → ℤ) (payload : ℕ → α) :
    ((∀ k, 1 ≤ k → k ≤ 50 → np k < 0) →
      gammaHMultiLoop (gammaHAttempt np payload) =
        .error "gamma_h: more than 50 internal rejections") ∧
    (∀ j, 1 ≤ j → j ≤ 50 → (∀ k, 1 ≤ k → k < j → np k < 0) → 0 ≤ np j →
      gammaHMultiLoop (gammaHAttempt np payload) = .ok (payload j)) := by
  constructor
  · intro h
    apply gammaHRetryAux_all_fail
    intro j hj1 hj2
    simp [gammaHAttempt, h j hj1 (by omega)]
  · intro j hj1 hj2 hfail hj
    exact gammaHRetryAux_first_success (gammaHAttempt np payload) 50 1 j (payload j)
      hj1 (by omega) (fun i hi1 hi2 => by simp [gammaHAttempt, hfail i hi1 hi2])
      (by simp [gammaHAttempt, not_lt.mpr hj])

theorem c6_witness :
    gammaHMultiLoop (gammaHAttempt (fun _ => (-1 : ℤ)) (fun _ => (0 : ℕ))) =
      .error "gamma_h: more than 50 internal rejections" :=
  (c6_gammaH_retry_cap (fun _ => (-1 : ℤ)) (fun _ => (0 : ℕ))).1 (fun _ _ _ => by norm_num)

/-! ### The cross-section model (crossection, lines 2084-2247, with the
helper functions Pl, Ef, breitwigner at lines 2839-2866)

`crossection` reads the resonance tables `RATIOJp/n`, `BGAMMAp/n`,
`AMRESp/n`, `WIDTHp/n` and the mass table `AM`, all of which are declared
in the header file, which is not part of src/.  They are therefore
modelled from the spec as abstract tables; the spec describes them as the
"resonance mass/width/cross-section-normalization tables (9 resonances x
proton/neutron variants)", so the normalization data (a branching ratio
and a coupling) is taken nonnegative. -/

/-- Modelled from the spec: the nucleon rest masses `AM[12]` and `AM[13]`
from the missing header.  The proton mass 0.93827 appears literally in
`functs` and `breitwigner`; the neutron value is the standard SOPHIA mass
0.93957, consistent with `AM2 = 0.882792` in `crossection`. -/
noncomputable def amNuc (NL0 : ℤ) : ℝ :=
  if NL0 = 13 then 0.93827 else 0.93957

/-- The squared-mass constant `AM2` of `crossection` (lines 2095-2098,
literal in the source). -/
noncomputable def am2 (NL0 : ℤ) : ℝ :=
  if NL0 = 13 then 0.880351 else 0.882792

/-- Modelled from the spec: the resonance table block for one nucleon
type -- ratios `RATIOJ`, couplings `BGAMMA`, masses `AMRES`, widths
`WIDTH` for the nine resonances, with the physical nonnegativity of the
normalization data recorded. -/
structure ResTable where
  ratioJ : Fin 9 → ℝ
  bgamma : Fin 9 → ℝ
  amres : Fin 9 → ℝ
  widthRes : Fin 9 → ℝ
  ratioJ_nonneg : ∀ i, 0 ≤ ratioJ i
  bgamma_nonneg : ∀ i, 0 ≤ bgamma i

/-- Modelled from the spec: the proton and neutron resonance tables. -/
structure SophiaTables where
  proton : ResTable
  neutron : ResTable

/-- Table selection by nucleon code (the `NL0 == 13` / `NL0 == 14`
branches of `crossection`; other codes throw in the source and are never
reached by the claims). -/
def SophiaTables.forN (T : SophiaTables) (NL0 : ℤ) : ResTable :=
  if NL0 = 13 then T.proton else T.neutron

/-- A concrete valid table instance (all normalizations zero), used for
witnesses. -/
def trivialTables : SophiaTables :=
  { proton := ⟨fun _ => 0, fun _ => 0, fun _ => 1, fun _ => 1,
      fun _ => le_refl 0, fun _ => le_refl 0⟩
    neutron := ⟨fun _ => 0, fun _ => 0, fun _ => 1, fun _ => 1,
      fun _ => le_refl 0, fun _ => le_refl 0⟩ }

/-- `Pl` (lines 2839-2845). -/
noncomputable def Pl (x xth xmax alpha : ℝ) : ℝ :=
  if xth > x then 0
  else
    ((x - xth) / (xmax - xth)) ^ (alpha * xmax / xth - alpha) *
      (x / xmax) ^ (-(alpha * xmax / xth))

/-- `Ef` (lines 2847-2858). -/
noncomputable def Ef (x th w : ℝ) : ℝ :=
  if x ≤ th then 0 else if x < w + th then (x - th) / w else 1

/-- `breitwigner` (lines 2860-2866). -/
noncomputable def breitwigner (sigma0 Gamma DMM epsPrime : ℝ) : ℝ :=
  let pm : ℝ := 0.93827
  let s := pm * pm + 2 * pm * epsPrime
  let gam2s := Gamma * Gamma * s
  sigma0 * (s / epsPrime / epsPrime) * gam2s /
    ((s - DMM * DMM) * (s - DMM * DMM) + gam2s)

/-- `singleback` (lines 2413-2416). -/
noncomputable def singleback (x : ℝ) : ℝ :=
  92.7 * Pl x 0.152 0.25 2

/-- `twoback` (lines 2418-2421). -/
noncomputable def twoback (x : ℝ) : ℝ :=
  37.7 * Pl x 0.4 0.6 2

/-- The invariant mass `s = pm^2 + 2 pm x` of `crossection` (line 2123). -/
noncomputable def sOf (NL0 : ℤ) (x : ℝ) : ℝ :=
  amNuc NL0 * amNuc NL0 + 2 * amNuc NL0 * x

/-- `SIG0[i]` (lines 2105, 2113). -/
noncomputable def sig0 (rt : ResTable) (NL0 : ℤ) (i : Fin 9) : ℝ :=
  4.893089117 / am2 NL0 * rt.ratioJ i * rt.bgamma i

/-- `sig_res[i]` (lines 2133-2139): Breit-Wigner times threshold factor,
computed only for `x <= 10`; the first resonance uses the threshold
factor `Ef(x, 0.152, 0.17)`, the others `Ef(x, 0.15, 0.38)`. -/
noncomputable def sigRes (rt : ResTable) (NL0 : ℤ) (x : ℝ) (i : Fin 9) : ℝ :=
  if x ≤ 10 then
    breitwigner (sig0 rt NL0 i) (rt.widthRes i) (rt.amres i) x *
      (if i = 0 then Ef x 0.152 0.17 else Ef x 0.15 0.38)
  else 0

/-- `cross_res` (lines 2133-2139): the sum of the nine resonance terms. -/
noncomputable def cross_res (rt : ResTable) (NL0 : ℤ) (x : ℝ) : ℝ :=
  ∑ i : Fin 9, sigRes rt NL0 x i

/-- `cross_dir1` (lines 2141-2146), zero above `x = 10` as in the source
where the direct block sits inside `if (x <= 10.)`. -/
noncomputable def cross_dir1 (x : ℝ) : ℝ :=
  if x ≤ 10 then
    if 0.1 < x ∧ x < 0.6 then
      singleback x + 40 * Real.exp (-(x - 0.29) * (x - 0.29) / 0.002) -
        15 * Real.exp (-(x - 0.37) * (x - 0.37) / 0.002)
    else singleback x
  else 0

/-- `cross_dir2` (line 2147). -/
noncomputable def cross_dir2 (x : ℝ) : ℝ :=
  if x ≤ 10 then twoback x else 0

/-- `cross_dir` (line 2148). -/
noncomputable def cross_dir (x : ℝ) : ℝ :=
  cross_dir1 x + cross_dir2 x

/-- `cross_frag2` before the multipion block (lines 2152-2157). -/
noncomputable def crossFrag2Pre (NL0 : ℤ) (x : ℝ) : ℝ :=
  (if NL0 = 13 then 80.3 else 60.2) * Ef x 0.5 0.1 * sOf NL0 x ^ (-0.34 : ℝ)

/-- `cs_multidiff` as first computed in the multipion block (lines
2166-2173). -/
noncomputable def csMultidiffPre (NL0 : ℤ) (x : ℝ) : ℝ :=
  (1 - Real.exp (-((x - 0.85) / 0.69))) *
    ((if NL0 = 13 then 29.3 else 26.4) * sOf NL0 x ^ (-0.34 : ℝ) +
      59.3 * sOf NL0 x ^ (0.095 : ℝ))

/-- `cs_tmp` (lines 2181-2183). -/
noncomputable def csTmp (NL0 : ℤ) (x : ℝ) : ℝ :=
  0.96 * (1 - Real.exp (-((x - 0.85) ^ (0.75 : ℝ) / 0.64))) *
    (74.1 * x ^ (-0.44 : ℝ) + 62 * sOf NL0 x ^ (0.08 : ℝ))

/-- `cs_delta` (line 2186): the pre-block fragmentation cross section
minus the excess of the recomputed diffractive parts over the initial
diffractive estimate `0.11 * cs_multidiff`. -/
noncomputable def csDelta (NL0 : ℤ) (x : ℝ) : ℝ :=
  crossFrag2Pre NL0 x -
    (0.14 * csTmp NL0 x + 0.013 * csTmp NL0 x - 0.11 * csMultidiffPre NL0 x)

/-- Final `cross_diffr1` (line 2184; zero outside the `x > 0.85` block). -/
noncomputable def crossDiffr1 (NL0 : ℤ) (x : ℝ) : ℝ :=
  if 0.85 < x then 0.14 * csTmp NL0 x else 0

/-- Final `cross_diffr2` (line 2185). -/
noncomputable def crossDiffr2 (NL0 : ℤ) (x : ℝ) : ℝ :=
  if 0.85 < x then 0.013 * csTmp NL0 x else 0

/-- Final `cross_frag2` (lines 2187-2192): clamped to zero when
`cs_delta` is negative. -/
noncomputable def crossFrag2 (NL0 : ℤ) (x : ℝ) : ℝ :=
  if 0.85 < x then (if csDelta NL0 x < 0 then 0 else csDelta NL0 x)
  else crossFrag2Pre NL0 x

/-- Final `cs_multi` (lines 2174, 2187-2192): `0.89 * cs_multidiff`, with
a negative `cs_delta` redistributed into it. -/
noncomputable def csMulti (NL0 : ℤ) (x : ℝ) : ℝ :=
  if 0.85 < x then
    (if csDelta NL0 x < 0 then 0.89 * csMultidiffPre NL0 x + csDelta NL0 x
     else 0.89 * csMultidiffPre NL0 x)
  else 0

/-- Final `cross_diffr` (line 2193). -/
noncomputable def crossDiffr (NL0 : ℤ) (x : ℝ) : ℝ :=
  crossDiffr1 NL0 x + crossDiffr2 NL0 x

/-- Final `cs_multidiff` (line 2194). -/
noncomputable def csMultidiff (NL0 : ℤ) (x : ℝ) : ℝ :=
  csMulti NL0 x + crossDiffr NL0 x

/-- `crossection(x, NDIR, NL0)` (lines 2084-2247).  Below the photopion
threshold `s < 1.1646` the function returns 0; otherwise the requested
slice of the four physics terms is assembled exactly as in the `switch`.
The source throws for `NDIR` outside 0..19 and for `NL0` outside 13, 14;
those argument errors are modelled as the junk value 0 and are excluded
by the hypotheses of every claim. -/
noncomputable def crossection (T : SophiaTables) (x : ℝ) (NDIR : ℕ) (NL0 : ℤ) : ℝ :=
  if sOf NL0 x < 1.1646 then 0
  else if NDIR = 0 then
    cross_res (T.forN NL0) NL0 x + cross_dir x + crossDiffr NL0 x + crossFrag2 NL0 x
  else if NDIR = 1 then cross_res (T.forN NL0) NL0 x
  else if NDIR = 2 then cross_res (T.forN NL0) NL0 x + cross_dir x
  else if NDIR = 3 then
    cross_res (T.forN NL0) NL0 x + cross_dir x + csMultidiff NL0 x + crossFrag2 NL0 x
  else if NDIR = 4 then cross_dir x
  else if NDIR = 5 then csMulti NL0 x
  else if NDIR = 6 then cross_res (T.forN NL0) NL0 x + cross_dir2 x
  else if NDIR = 7 then cross_res (T.forN NL0) NL0 x + cross_dir1 x
  else if NDIR = 8 then cross_res (T.forN NL0) NL0 x + cross_dir x + crossDiffr1 NL0 x
  else if NDIR = 9 then cross_res (T.forN NL0) NL0 x + cross_dir x + crossDiffr NL0 x
  else if NDIR = 10 then crossDiffr NL0 x
  else if h : 11 ≤ NDIR ∧ NDIR ≤ 19 then sigRes (T.forN NL0) NL0 x ⟨NDIR - 11, by omega⟩
  else 0

/-- The denominator `tot` of `dec_inter3` (lines 1980-1981): the total
cross section, with a zero total replaced by 1. -/
noncomputable def sophTot (T : SophiaTables) (epsPrime : ℝ) (L0 : ℤ) : ℝ :=
  if crossection T epsPrime 3 L0 = 0 then 1 else crossection T epsPrime 3 L0

/-- One cumulative threshold `probK` of `dec_inter3` (lines 1982-1987):
the slice `NDIR` divided by `tot`. -/
noncomputable def sophProb (T : SophiaTables) (epsPrime : ℝ) (NDIR : ℕ) (L0 : ℤ) : ℝ :=
  crossection T epsPrime NDIR L0 / sophTot T epsPrime L0

/-- `dec_inter3` (lines 1965-2009): cumulative thresholds from the slice
ratios, one uniform draw `rn`, if-chain selection; `none` is the final
`throw`. -/
noncomputable def dec_inter3 (T : SophiaTables) (epsPrime : ℝ) (L0 : ℤ) (rn : ℝ) :
    Option ℤ :=
  if rn < sophProb T epsPrime 1 L0 then some 6
  else if sophProb T epsPrime 1 L0 ≤ rn ∧ rn < sophProb T epsPrime 7 L0 then some 2
  else if sophProb T epsPrime 7 L0 ≤ rn ∧ rn < sophProb T epsPrime 2 L0 then some 3
  else if sophProb T epsPrime 2 L0 ≤ rn ∧ rn < sophProb T epsPrime 8 L0 then some 1
  else if sophProb T epsPrime 8 L0 ≤ rn ∧ rn < sophProb T epsPrime 9 L0 then some 4
  else if sophProb T epsPrime 9 L0 ≤ rn ∧ rn < sophProb T epsPrime 0 L0 then some 5
  else if sophProb T epsPrime 0 L0 ≤ rn ∧ rn < 1 then some 0
  else if rn = 1 then some 0
  else none

/-- Modelled from the spec: the process selection as the spec describes
it -- six cumulative probability thresholds (ratios of channel cross
sections to the total, a zero total treated as 1), the mode of the first
threshold the draw falls under in the order resonance (6), direct N-pi
(2), direct Delta-pi (3), diffractive rho (1), diffractive omega (4),
low-energy fragmentation (5), multipion fallback (0), and a draw of
exactly 1 resolving to multipion. -/
noncomputable def decInter3Spec (T : SophiaTables) (epsPrime : ℝ) (L0 : ℤ) (rn : ℝ) : ℤ :=
  if rn = 1 then 0
  else if rn < sophProb T epsPrime 1 L0 then 6
  else if rn < sophProb T epsPrime 7 L0 then 2
  else if rn < sophProb T epsPrime 2 L0 then 3
  else if rn < sophProb T epsPrime 8 L0 then 1
  else if rn < sophProb T epsPrime 9 L0 then 4
  else if rn < sophProb T epsPrime 0 L0 then 5
  else 0

/-! ### Toolkit: bounds on real powers with rational exponents

The fractional exponents of the cross-section parametrization (0.34,
0.095, 0.08, 0.44, 0.75, ...) are rationals, so every bound on a real
power reduces to an integer-power inequality checked by `norm_num`. -/

theorem rpow_natDiv_eq {y : ℝ} (hy : 0 ≤ y) (n m : ℕ) (hm : 0 < m) :
    y ^ ((n : ℝ) / m) = (y ^ n) ^ ((1 : ℝ) / m) := by
  rw [← Real.rpow_natCast y n, ← Real.rpow_mul hy, mul_one_div]

theorem le_rpow_natDiv {y c : ℝ} (n m : ℕ) (hm : 0 < m) (hy : 0 ≤ y) (hc : 0 ≤ c)
    (h : c ^ m ≤ y ^ n) : c ≤ y ^ ((n : ℝ) / m) := by
  rw [rpow_natDiv_eq hy n m hm]
  have h1 : c = (c ^ m) ^ ((1 : ℝ) / m) := by
    rw [← Real.rpow_natCast c m, ← Real.rpow_mul hc]
    rw [mul_one_div, div_self (by positivity), Real.rpow_one]
  rw [h1]
  exact Real.rpow_le_rpow (by positivity) h (by positivity)

theorem rpow_natDiv_le {y c : ℝ} (n m : ℕ) (hm : 0 < m) (hy : 0 ≤ y) (hc : 0 ≤ c)
    (h : y ^ n ≤ c ^ m) : y ^ ((n : ℝ) / m) ≤ c := by
  rw [rpow_natDiv_eq hy n m hm]
  have h1 : c = (c ^ m) ^ ((1 : ℝ) / m) := by
    rw [← Real.rpow_natCast c m, ← Real.rpow_mul hc]
    rw [mul_one_div, div_self (by positivity), Real.rpow_one]
  rw [h1]
  exact Real.rpow_le_rpow (by positivity) h (by positivity)

theorem exp_neg_le_inv (t c : ℝ) (hc : 0 < c) (h : c ≤ Real.exp t) :
    Real.exp (-t) ≤ c⁻¹ := by
  rw [Real.exp_neg]
  exact inv_le_inv_of_le hc h

theorem exp_five_ge : (143 : ℝ) ≤ Real.exp 5 := by
  have h1 : ((5 : ℕ) : ℝ) * 1 = 5 := by norm_num
  have h2 : Real.exp 5 = Real.exp 1 ^ 5 := by
    rw [← h1, Real.exp_nat_mul]
  rw [h2]
  have h3 := Real.exp_one_gt_d9
  have h4 : (2.7182818283 : ℝ) ^ 5 ≤ Real.exp 1 ^ 5 :=
    pow_le_pow_left (by norm_num) h3.le 5
  have h5 : (143 : ℝ) ≤ (2.7182818283 : ℝ) ^ 5 := by norm_num
  linarith

/-! ### Nonnegativity of the cross-section components -/

theorem Pl_nonneg {x xth xmax alpha : ℝ} (hth : 0 < xth) (hmax : xth ≤ xmax) :
    0 ≤ Pl x xth xmax alpha := by
  unfold Pl
  split
  · exact le_refl 0
  · rename_i hx
    push_neg at hx
    have h1 : (0 : ℝ) ≤ (x - xth) / (xmax - xth) :=
      div_nonneg (by linarith) (by linarith)
    have h2 : (0 : ℝ) ≤ x / xmax := div_nonneg (by linarith) (by linarith)
    exact mul_nonneg (Real.rpow_nonneg h1 _) (Real.rpow_nonneg h2 _)

theorem Pl_pos {x xth xmax alpha : ℝ} (hth : 0 < xth) (hmax : xth < xmax) (hx : xth < x) :
    0 < Pl x xth xmax alpha := by
  unfold Pl
  rw [if_neg (by push_neg; linarith)]
  have h1 : (0 : ℝ) < (x - xth) / (xmax - xth) := div_pos (by linarith) (by linarith)
  have h2 : (0 : ℝ) < x / xmax := div_pos (by linarith) (by linarith)
  exact mul_pos (Real.rpow_pos_of_pos h1 _) (Real.rpow_pos_of_pos h2 _)

theorem singleback_nonneg (x : ℝ) : 0 ≤ singleback x := by
  have := @Pl_nonneg x 0.152 0.25 2 (show (0:ℝ) < 0.152 by norm_num)
    (show (0.152:ℝ) ≤ 0.25 by norm_num)
  unfold singleback
  linarith

theorem twoback_nonneg (x : ℝ) : 0 ≤ twoback x := by
  have := @Pl_nonneg x 0.4 0.6 2 (show (0:ℝ) < 0.4 by norm_num)
    (show (0.4:ℝ) ≤ 0.6 by norm_num)
  unfold twoback
  linarith

theorem Ef_nonneg {x th w : ℝ} (hw : 0 < w) : 0 ≤ Ef x th w := by
  unfold Ef
  split
  · exact le_refl 0
  · split
    · rename_i h1 _
      push_neg at h1
      exact div_nonneg (by linarith) hw.le
    · norm_num

theorem Ef_le_one {x th w : ℝ} (hw : 0 < w) : Ef x th w ≤ 1 := by
  unfold Ef
  split
  · norm_num
  · split
    · rename_i h1 h2
      rw [div_le_one hw]
      linarith
    · exact le_refl 1

theorem Ef_eq_one {x th w : ℝ} (hw : 0 < w) (h : w + th ≤ x) : Ef x th w = 1 := by
  unfold Ef
  rw [if_neg (by linarith), if_neg (by linarith)]

theorem breitwigner_nonneg {sigma0 Gamma DMM x : ℝ} (hs : 0 ≤ sigma0) (hx : 0 ≤ x) :
    0 ≤ breitwigner sigma0 Gamma DMM x := by
  unfold breitwigner
  have h1 : (0 : ℝ) ≤ 0.93827 * 0.93827 + 2 * 0.93827 * x := by nlinarith
  have h2 : (0 : ℝ) ≤ Gamma * Gamma * (0.93827 * 0.93827 + 2 * 0.93827 * x) :=
    mul_nonneg (mul_self_nonneg Gamma) h1
  have h3 : (0 : ℝ) ≤ (0.93827 * 0.93827 + 2 * 0.93827 * x) / x / x :=
    div_nonneg (div_nonneg h1 hx) hx
  have h4 : (0 : ℝ) ≤
      ((0.93827 * 0.93827 + 2 * 0.93827 * x) - DMM * DMM) *
        ((0.93827 * 0.93827 + 2 * 0.93827 * x) - DMM * DMM) +
        Gamma * Gamma * (0.93827 * 0.93827 + 2 * 0.93827 * x) := by
    nlinarith [mul_self_nonneg ((0.93827 * 0.93827 + 2 * 0.93827 * x) - DMM * DMM)]
  exact div_nonneg (mul_nonneg (mul_nonneg hs h3) h2) h4

theorem am2_pos (NL0 : ℤ) : 0 < am2 NL0 := by
  unfold am2
  split <;> norm_num

theorem amNuc_pos (NL0 : ℤ) : 0 < amNuc NL0 := by
  unfold amNuc
  split <;> norm_num

theorem sig0_nonneg (rt : ResTable) (NL0 : ℤ) (i : Fin 9) : 0 ≤ sig0 rt NL0 i := by
  unfold sig0
  have h1 : (0 : ℝ) ≤ 4.893089117 / am2 NL0 := by
    have := am2_pos NL0
    positivity
  exact mul_nonneg (mul_nonneg h1 (rt.ratioJ_nonneg i)) (rt.bgamma_nonneg i)

theorem sigRes_nonneg (rt : ResTable) (NL0 : ℤ) {x : ℝ} (hx : 0 ≤ x) (i : Fin 9) :
    0 ≤ sigRes rt NL0 x i := by
  unfold sigRes
  split
  · refine mul_nonneg (breitwigner_nonneg (sig0_nonneg rt NL0 i) hx) ?_
    split
    · exact Ef_nonneg (by norm_num)
    · exact Ef_nonneg (by norm_num)
  · exact le_refl 0

theorem cross_res_nonneg (rt : ResTable) (NL0 : ℤ) {x : ℝ} (hx : 0 ≤ x) :
    0 ≤ cross_res rt NL0 x :=
  Finset.sum_nonneg fun i _ => sigRes_nonneg rt NL0 hx i

theorem sigRes_le_cross_res (rt : ResTable) (NL0 : ℤ) {x : ℝ} (hx : 0 ≤ x) (i : Fin 9) :
    sigRes rt NL0 x i ≤ cross_res rt NL0 x :=
  Finset.single_le_sum (fun j _ => sigRes_nonneg rt NL0 hx j) (Finset.mem_univ i)

/-- Lower bound for `Pl` on the part of the direct-channel window where
the negative Gaussian term needs to be dominated. -/
theorem Pl_lb {x : ℝ} (h1 : 0.33 ≤ x) (h2 : x ≤ 0.6) :
    (0.162 : ℝ) ≤ Pl x 0.152 0.25 2 := by
  unfold Pl
  rw [if_neg (by push_neg; linarith)]
  have he1 : (2 * 0.25 / 0.152 - 2 : ℝ) = (49 : ℝ) / 38 := by norm_num
  have he2 : (-(2 * 0.25 / 0.152) : ℝ) = -((125 : ℝ) / 38) := by norm_num
  rw [he1, he2]
  have hb20 : (0 : ℝ) ≤ x / 0.25 := by positivity
  rw [Real.rpow_neg hb20]
  by_cases hx45 : x ≤ 0.45
  · -- on [0.33, 0.45]: first factor at least 1.81, second at least 1/7
    have hbase1 : (1.81 : ℝ) ≤ (x - 0.152) / (0.25 - 0.152) := by
      rw [le_div_iff (by norm_num)]
      linarith
    have hp1 : (1.81 : ℝ) ≤ ((x - 0.152) / (0.25 - 0.152)) ^ ((49 : ℝ) / 38) := by
      calc (1.81 : ℝ) ≤ ((x - 0.152) / (0.25 - 0.152)) ^ ((1 : ℝ)) := by
            rw [Real.rpow_one]; exact hbase1
        _ ≤ ((x - 0.152) / (0.25 - 0.152)) ^ ((49 : ℝ) / 38) :=
            Real.rpow_le_rpow_of_exponent_le (by linarith) (by norm_num)
    have hp2pow : ((x / 0.25) ^ ((125 : ℝ) / 38)) ≤ 7 := by
      calc (x / 0.25) ^ ((125 : ℝ) / 38) ≤ (1.8 : ℝ) ^ ((125 : ℝ) / 38) :=
            Real.rpow_le_rpow hb20 (by rw [div_le_iff (by norm_num)]; linarith) (by norm_num)
        _ ≤ 7 := rpow_natDiv_le 125 38 (by norm_num) (by norm_num) (by norm_num) (by norm_num)
    have hp2pos : (0 : ℝ) < (x / 0.25) ^ ((125 : ℝ) / 38) :=
      Real.rpow_pos_of_pos (by positivity) _
    have hp2 : (7 : ℝ)⁻¹ ≤ ((x / 0.25) ^ ((125 : ℝ) / 38))⁻¹ :=
      inv_le_inv_of_le hp2pos hp2pow
    calc (0.162 : ℝ) ≤ 1.81 * 7⁻¹ := by norm_num
      _ ≤ ((x - 0.152) / (0.25 - 0.152)) ^ ((49 : ℝ) / 38) *
          ((x / 0.25) ^ ((125 : ℝ) / 38))⁻¹ :=
          mul_le_mul hp1 hp2 (by norm_num) (by linarith)
  · -- on [0.45, 0.6]: first factor at least 3.04, second at least 1/18
    push_neg at hx45
    have hbase1 : (3.04 : ℝ) ≤ (x - 0.152) / (0.25 - 0.152) := by
      rw [le_div_iff (by norm_num)]
      linarith
    have hp1 : (3.04 : ℝ) ≤ ((x - 0.152) / (0.25 - 0.152)) ^ ((49 : ℝ) / 38) := by
      calc (3.04 : ℝ) ≤ ((x - 0.152) / (0.25 - 0.152)) ^ ((1 : ℝ)) := by
            rw [Real.rpow_one]; exact hbase1
        _ ≤ ((x - 0.152) / (0.25 - 0.152)) ^ ((49 : ℝ) / 38) :=
            Real.rpow_le_rpow_of_exponent_le (by linarith) (by norm_num)
    have hp2pow : ((x / 0.25) ^ ((125 : ℝ) / 38)) ≤ 18 := by
      calc (x / 0.25) ^ ((125 : ℝ) / 38) ≤ (2.4 : ℝ) ^ ((125 : ℝ) / 38) :=
            Real.rpow_le_rpow hb20 (by rw [div_le_iff (by norm_num)]; linarith) (by norm_num)
        _ ≤ 18 := rpow_natDiv_le 125 38 (by norm_num) (by norm_num) (by norm_num) (by norm_num)
    have hp2pos : (0 : ℝ) < (x / 0.25) ^ ((125 : ℝ) / 38) :=
      Real.rpow_pos_of_pos (by positivity) _
    have hp2 : (18 : ℝ)⁻¹ ≤ ((x / 0.25) ^ ((125 : ℝ) / 38))⁻¹ :=
      inv_le_inv_of_le hp2pos hp2pow
    calc (0.162 : ℝ) ≤ 3.04 * 18⁻¹ := by norm_num
      _ ≤ ((x - 0.152) / (0.25 - 0.152)) ^ ((49 : ℝ) / 38) *
          ((x / 0.25) ^ ((125 : ℝ) / 38))⁻¹ :=
          mul_le_mul hp1 hp2 (by norm_num) (by linarith)

theorem cross_dir1_nonneg {x : ℝ} (hx : 0 ≤ x) : 0 ≤ cross_dir1 x := by
  unfold cross_dir1
  split
  · split
    · rename_i _ hwin
      have hsb := singleback_nonneg x
      by_cases h33 : x ≤ 0.33
      · have hsq : -(x - 0.37) * (x - 0.37) ≤ -(x - 0.29) * (x - 0.29) := by nlinarith
        have hmono : -(x - 0.37) * (x - 0.37) / 0.002 ≤ -(x - 0.29) * (x - 0.29) / 0.002 :=
          (div_le_div_right (by norm_num)).mpr hsq
        have hexp := Real.exp_le_exp.mpr hmono
        have hpos := Real.exp_pos (-(x - 0.29) * (x - 0.29) / 0.002)
        linarith
      · push_neg at h33
        have hPl := Pl_lb h33.le hwin.2.le
        have hexp1 : Real.exp (-(x - 0.37) * (x - 0.37) / 0.002) ≤ 1 := by
          rw [Real.exp_le_one_iff]
          exact div_nonpos_of_nonpos_of_nonneg
            (by nlinarith [mul_self_nonneg (x - 0.37)]) (by norm_num)
        have hpos := (Real.exp_pos (-(x - 0.29) * (x - 0.29) / 0.002)).le
        unfold singleback at hsb ⊢
        nlinarith
    · exact singleback_nonneg x
  · exact le_refl 0

theorem cross_dir2_nonneg (x : ℝ) : 0 ≤ cross_dir2 x := by
  unfold cross_dir2
  split
  · exact twoback_nonneg x
  · exact le_refl 0

theorem cross_dir_nonneg {x : ℝ} (hx : 0 ≤ x) : 0 ≤ cross_dir x :=
  add_nonneg (cross_dir1_nonneg hx) (cross_dir2_nonneg x)

/-! ### The multipion block: nonnegativity and the redistribution bound -/

theorem amNuc_bounds (NL0 : ℤ) : 0.93827 ≤ amNuc NL0 ∧ amNuc NL0 ≤ 0.93957 := by
  unfold amNuc
  split <;> norm_num

theorem sOf_lb {NL0 : ℤ} {x : ℝ} (hx : 0.85 ≤ x) : 2.47 ≤ sOf NL0 x := by
  obtain ⟨h1, h2⟩ := amNuc_bounds NL0
  have hpm : (0 : ℝ) < amNuc NL0 := lt_of_lt_of_le (by norm_num) h1
  have hmul : (0.93827 : ℝ) * 0.85 ≤ amNuc NL0 * x :=
    mul_le_mul h1 hx (by norm_num) hpm.le
  have hsq : (0.93827 : ℝ) * 0.93827 ≤ amNuc NL0 * amNuc NL0 :=
    mul_le_mul h1 h1 (by norm_num) hpm.le
  unfold sOf
  nlinarith

theorem sOf_pos {NL0 : ℤ} {x : ℝ} (hx : 0.85 ≤ x) : 0 < sOf NL0 x :=
  lt_of_lt_of_le (by norm_num) (sOf_lb hx)

theorem csMultidiffPre_nonneg {NL0 : ℤ} {x : ℝ} (hx : 0.85 ≤ x) :
    0 ≤ csMultidiffPre NL0 x := by
  unfold csMultidiffPre
  have h1 : Real.exp (-((x - 0.85) / 0.69)) ≤ 1 := by
    rw [Real.exp_le_one_iff]
    have : (0 : ℝ) ≤ (x - 0.85) / 0.69 := div_nonneg (by linarith) (by norm_num)
    linarith
  have hs := (@sOf_pos NL0 x hx).le
  have h2 : (0 : ℝ) ≤ (if NL0 = 13 then (29.3 : ℝ) else 26.4) := by split <;> norm_num
  have h3 : (0 : ℝ) ≤ sOf NL0 x ^ (-0.34 : ℝ) := Real.rpow_nonneg hs _
  have h4 : (0 : ℝ) ≤ sOf NL0 x ^ (0.095 : ℝ) := Real.rpow_nonneg hs _
  exact mul_nonneg (by linarith) (by nlinarith)

theorem csTmp_nonneg {NL0 : ℤ} {x : ℝ} (hx : 0.85 ≤ x) : 0 ≤ csTmp NL0 x := by
  unfold csTmp
  have h0 : (0 : ℝ) ≤ (x - 0.85) ^ (0.75 : ℝ) := Real.rpow_nonneg (by linarith) _
  have h1 : Real.exp (-((x - 0.85) ^ (0.75 : ℝ) / 0.64)) ≤ 1 := by
    rw [Real.exp_le_one_iff]
    have : (0 : ℝ) ≤ (x - 0.85) ^ (0.75 : ℝ) / 0.64 := div_nonneg h0 (by norm_num)
    linarith
  have hxp : (0 : ℝ) ≤ x := by linarith
  have hs := (@sOf_pos NL0 x hx).le
  have h3 : (0 : ℝ) ≤ x ^ (-0.44 : ℝ) := Real.rpow_nonneg hxp _
  have h4 : (0 : ℝ) ≤ sOf NL0 x ^ (0.08 : ℝ) := Real.rpow_nonneg hs _
  nlinarith

theorem crossFrag2Pre_nonneg {NL0 : ℤ} {x : ℝ} (hs : 0 ≤ sOf NL0 x) :
    0 ≤ crossFrag2Pre NL0 x := by
  unfold crossFrag2Pre
  have h1 : (0 : ℝ) ≤ (if NL0 = 13 then (80.3 : ℝ) else 60.2) := by split <;> norm_num
  have h2 : (0 : ℝ) ≤ Ef x 0.5 0.1 := Ef_nonneg (by norm_num)
  have h3 : (0 : ℝ) ≤ sOf NL0 x ^ (-0.34 : ℝ) := Real.rpow_nonneg hs _
  exact mul_nonneg (mul_nonneg h1 h2) h3

theorem crossDiffr1_nonneg (NL0 : ℤ) (x : ℝ) : 0 ≤ crossDiffr1 NL0 x := by
  unfold crossDiffr1
  split
  · rename_i h
    have := @csTmp_nonneg NL0 x (le_of_lt h)
    linarith
  · exact le_refl 0

theorem crossDiffr2_nonneg (NL0 : ℤ) (x : ℝ) : 0 ≤ crossDiffr2 NL0 x := by
  unfold crossDiffr2
  split
  · rename_i h
    have := @csTmp_nonneg NL0 x (le_of_lt h)
    linarith
  · exact le_refl 0

theorem crossDiffr_nonneg (NL0 : ℤ) (x : ℝ) : 0 ≤ crossDiffr NL0 x :=
  add_nonneg (crossDiffr1_nonneg NL0 x) (crossDiffr2_nonneg NL0 x)

set_option maxHeartbeats 2000000 in
/-- The key redistribution bound: for `x > 0.85` the recomputed
diffractive part `0.153 * cs_tmp` never exceeds the initial multipion
estimate plus the fragmentation term, so a negative `cs_delta` can never
drive `cs_multi` below zero. -/
theorem csTmp_bound {NL0 : ℤ} {x : ℝ} (hx : 0.85 < x) :
    0.153 * csTmp NL0 x ≤ csMultidiffPre NL0 x + crossFrag2Pre NL0 x := by
  obtain ⟨hpml, hpmu⟩ := amNuc_bounds NL0
  have hs247 : (2.47 : ℝ) ≤ sOf NL0 x := sOf_lb hx.le
  have hs0 : (0 : ℝ) < sOf NL0 x := by linarith
  have hxpos : (0 : ℝ) < x := by linarith
  set s := sOf NL0 x with hsdef
  -- the threshold factor of the fragmentation term is 1 above x = 0.6
  have hEf1 : Ef x 0.5 0.1 = 1 := Ef_eq_one (by norm_num) (by linarith)
  -- shape of the three pieces
  have hcF : (60.2 : ℝ) ≤ (if NL0 = 13 then (80.3 : ℝ) else 60.2) := by split <;> norm_num
  have hcA : (0 : ℝ) ≤ (if NL0 = 13 then (29.3 : ℝ) else 26.4) := by split <;> norm_num
  have hB1 : (0 : ℝ) ≤ x ^ (-0.44 : ℝ) := Real.rpow_nonneg hxpos.le _
  have hB2 : (0 : ℝ) ≤ s ^ (0.08 : ℝ) := Real.rpow_nonneg hs0.le _
  have hE1pos := Real.exp_pos (-((x - 0.85) ^ (0.75 : ℝ) / 0.64))
  have hE1le : Real.exp (-((x - 0.85) ^ (0.75 : ℝ) / 0.64)) ≤ 1 := by
    rw [Real.exp_le_one_iff]
    have h0 : (0 : ℝ) ≤ (x - 0.85) ^ (0.75 : ℝ) := Real.rpow_nonneg (by linarith) _
    have : (0 : ℝ) ≤ (x - 0.85) ^ (0.75 : ℝ) / 0.64 := div_nonneg h0 (by norm_num)
    linarith
  -- cs_tmp is at most 0.96 * B
  have htmp : csTmp NL0 x ≤ 0.96 * (74.1 * x ^ (-0.44 : ℝ) + 62 * s ^ (0.08 : ℝ)) := by
    unfold csTmp
    rw [← hsdef]
    have hBnn : (0 : ℝ) ≤ 74.1 * x ^ (-0.44 : ℝ) + 62 * s ^ (0.08 : ℝ) := by nlinarith
    nlinarith
  -- the fragmentation term is at least 60.2 * s^(-0.34)
  have hfrag : 60.2 * s ^ (-(0.34) : ℝ) ≤ crossFrag2Pre NL0 x := by
    unfold crossFrag2Pre
    rw [← hsdef, hEf1]
    have h3 : (0 : ℝ) ≤ s ^ (-0.34 : ℝ) := Real.rpow_nonneg hs0.le _
    have : (60.2 : ℝ) * s ^ (-0.34 : ℝ) ≤
        (if NL0 = 13 then (80.3 : ℝ) else 60.2) * s ^ (-0.34 : ℝ) :=
      mul_le_mul_of_nonneg_right hcF h3
    calc (60.2 : ℝ) * s ^ (-(0.34) : ℝ) = 60.2 * s ^ (-0.34 : ℝ) := by norm_num
      _ ≤ (if NL0 = 13 then (80.3 : ℝ) else 60.2) * s ^ (-0.34 : ℝ) := this
      _ = (if NL0 = 13 then (80.3 : ℝ) else 60.2) * 1 * s ^ (-0.34 : ℝ) := by ring
  have hmd0 : (0 : ℝ) ≤ csMultidiffPre NL0 x := csMultidiffPre_nonneg hx.le
  by_cases hs10 : s ≤ 10
  · -- s <= 10: the fragmentation term alone dominates
    have hx44 : x ^ (-0.44 : ℝ) ≤ (0.93 : ℝ)⁻¹ := by
      have he : (-0.44 : ℝ) = -((11 : ℝ) / 25) := by norm_num
      rw [he, Real.rpow_neg hxpos.le]
      refine inv_le_inv_of_le (by norm_num) ?_
      refine le_rpow_natDiv 11 25 (by norm_num) hxpos.le (by norm_num) ?_
      calc (0.93 : ℝ) ^ 25 ≤ (0.85 : ℝ) ^ 11 := by norm_num
        _ ≤ x ^ 11 := pow_le_pow_left (by norm_num) hx.le 11
    have hs08 : s ^ (0.08 : ℝ) ≤ 1.21 := by
      have he : (0.08 : ℝ) = (2 : ℝ) / 25 := by norm_num
      rw [he]
      calc s ^ ((2 : ℝ) / 25) ≤ (10 : ℝ) ^ ((2 : ℝ) / 25) :=
            Real.rpow_le_rpow hs0.le hs10 (by norm_num)
        _ ≤ 1.21 := rpow_natDiv_le 2 25 (by norm_num) (by norm_num) (by norm_num)
            (by norm_num)
    have hs34 : (2.19 : ℝ)⁻¹ ≤ s ^ (-(0.34) : ℝ) := by
      have he : (-(0.34) : ℝ) = -((17 : ℝ) / 50) := by norm_num
      rw [he, Real.rpow_neg hs0.le]
      refine inv_le_inv_of_le (Real.rpow_pos_of_pos hs0 _) ?_
      refine rpow_natDiv_le 17 50 (by norm_num) hs0.le (by norm_num) ?_
      calc s ^ 17 ≤ (10 : ℝ) ^ 17 := pow_le_pow_left hs0.le hs10 17
        _ ≤ (2.19 : ℝ) ^ 50 := by norm_num
    have hfrag2 : (60.2 : ℝ) * (2.19 : ℝ)⁻¹ ≤ 60.2 * s ^ (-(0.34) : ℝ) := by
      have := mul_le_mul_of_nonneg_left hs34 (show (0:ℝ) ≤ 60.2 by norm_num)
      linarith
    have hBle : 74.1 * x ^ (-0.44 : ℝ) + 62 * s ^ (0.08 : ℝ) ≤
        74.1 * (0.93 : ℝ)⁻¹ + 62 * 1.21 := by nlinarith
    have h1 : (0.153 : ℝ) * csTmp NL0 x ≤
        0.153 * (0.96 * (74.1 * (0.93 : ℝ)⁻¹ + 62 * 1.21)) := by nlinarith
    have h2 : (0.153 : ℝ) * (0.96 * (74.1 * (0.93 : ℝ)⁻¹ + 62 * 1.21)) ≤
        60.2 * (2.19 : ℝ)⁻¹ := by norm_num
    linarith
  · -- s > 10: the multipion estimate dominates
    push_neg at hs10
    have hx485 : (4.85 : ℝ) ≤ x := by
      have hsOf : s = amNuc NL0 * amNuc NL0 + 2 * amNuc NL0 * x := hsdef.trans rfl
      have hsq : amNuc NL0 * amNuc NL0 ≤ (0.93957 : ℝ) * 0.93957 :=
        mul_le_mul hpmu hpmu (by linarith) (by norm_num)
      have hmul : 2 * amNuc NL0 * x ≤ 2 * 0.93957 * x := by
        have h2 : (2 : ℝ) * amNuc NL0 ≤ 2 * 0.93957 := by linarith
        exact mul_le_mul_of_nonneg_right h2 hxpos.le
      linarith [hs10]
    have hE0 : Real.exp (-((x - 0.85) / 0.69)) ≤ (143 : ℝ)⁻¹ := by
      have harg : (5 : ℝ) ≤ (x - 0.85) / 0.69 := by
        rw [le_div_iff (by norm_num)]
        linarith
      calc Real.exp (-((x - 0.85) / 0.69)) ≤ Real.exp (-5) :=
            Real.exp_le_exp.mpr (by linarith)
        _ ≤ (143 : ℝ)⁻¹ := exp_neg_le_inv 5 143 (by norm_num) exp_five_ge
    -- lower bound on the multipion estimate
    have h095 : (0.095 : ℝ) = (19 : ℝ) / 200 := by norm_num
    have hsplit : s ^ ((19 : ℝ) / 200) = s ^ ((2 : ℝ) / 25) * s ^ ((3 : ℝ) / 200) := by
      rw [← Real.rpow_add hs0]
      norm_num
    have hs3 : (1.03 : ℝ) ≤ s ^ ((3 : ℝ) / 200) := by
      refine le_rpow_natDiv 3 200 (by norm_num) hs0.le (by norm_num) ?_
      calc (1.03 : ℝ) ^ 200 ≤ (10 : ℝ) ^ 3 := by norm_num
        _ ≤ s ^ 3 := pow_le_pow_left (by norm_num) hs10.le 3
    have hs2 : (1 : ℝ) ≤ s ^ ((2 : ℝ) / 25) :=
      Real.one_le_rpow (by linarith) (by norm_num)
    have hA : 58.8 * s ^ ((19 : ℝ) / 200) ≤ csMultidiffPre NL0 x := by
      unfold csMultidiffPre
      rw [← hsdef, ← h095]
      have h34 : (0 : ℝ) ≤ s ^ (-0.34 : ℝ) := Real.rpow_nonneg hs0.le _
      have h95 : (0 : ℝ) < s ^ (0.095 : ℝ) := Real.rpow_pos_of_pos hs0 _
      have hcAs : (0 : ℝ) ≤ (if NL0 = 13 then (29.3 : ℝ) else 26.4) * s ^ (-0.34 : ℝ) :=
        mul_nonneg hcA h34
      have hfac : (142 : ℝ) / 143 ≤ 1 - Real.exp (-((x - 0.85) / 0.69)) := by
        have := hE0
        have h143 : (143 : ℝ)⁻¹ = 1 - 142 / 143 := by norm_num
        linarith [hE0, h143 ▸ hE0]
      have hEpos := Real.exp_pos (-((x - 0.85) / 0.69))
      nlinarith [hfac, hcAs, h95, mul_le_mul_of_nonneg_right hfac h95.le]
    have hx44 : x ^ (-0.44 : ℝ) ≤ (2 : ℝ)⁻¹ := by
      have he : (-0.44 : ℝ) = -((11 : ℝ) / 25) := by norm_num
      rw [he, Real.rpow_neg hxpos.le]
      refine inv_le_inv_of_le (by norm_num) ?_
      refine le_rpow_natDiv 11 25 (by norm_num) hxpos.le (by norm_num) ?_
      calc (2 : ℝ) ^ 25 ≤ (4.85 : ℝ) ^ 11 := by norm_num
        _ ≤ x ^ 11 := pow_le_pow_left (by norm_num) hx485 11
    have hfragnn : (0 : ℝ) ≤ crossFrag2Pre NL0 x := crossFrag2Pre_nonneg hs0.le
    have h1 : (0.153 : ℝ) * csTmp NL0 x ≤
        0.14688 * (74.1 * (2 : ℝ)⁻¹ + 62 * s ^ (0.08 : ℝ)) := by nlinarith
    have h08 : (0.08 : ℝ) = (2 : ℝ) / 25 := by norm_num
    have hstep : 0.14688 * (74.1 * (2 : ℝ)⁻¹ + 62 * s ^ (0.08 : ℝ)) ≤
        58.8 * s ^ ((19 : ℝ) / 200) := by
      rw [h08] at *
      rw [hsplit]
      nlinarith [hs2, hs3, mul_le_mul_of_nonneg_right hs3 (by linarith : (0:ℝ) ≤ s ^ ((2:ℝ)/25))]
    linarith

theorem csMulti_nonneg {NL0 : ℤ} (x : ℝ) : 0 ≤ csMulti NL0 x := by
  unfold csMulti
  split
  · rename_i hx
    split
    · have h1 := @csTmp_bound NL0 x hx
      unfold csDelta
      linarith
    · have := @csMultidiffPre_nonneg NL0 x hx.le
      linarith
  · exact le_refl 0

theorem crossFrag2_nonneg {NL0 : ℤ} {x : ℝ} (hs : 0 ≤ sOf NL0 x) :
    0 ≤ crossFrag2 NL0 x := by
  unfold crossFrag2
  split
  · split
    · exact le_refl 0
    · rename_i h
      push_neg at h
      exact h
  · exact crossFrag2Pre_nonneg hs

theorem csMultidiff_nonneg {NL0 : ℤ} (x : ℝ) : 0 ≤ csMultidiff NL0 x :=
  add_nonneg (csMulti_nonneg x) (crossDiffr_nonneg NL0 x)

/-! ### Slice ordering and nonnegativity of crossection -/

theorem x_lb_of_threshold {NL0 : ℤ} {x : ℝ} (h : ¬ sOf NL0 x < 1.1646) :
    0.1499 ≤ x := by
  obtain ⟨h1, h2⟩ := amNuc_bounds NL0
  push_neg at h
  unfold sOf at h
  have hpm0 : (0 : ℝ) < amNuc NL0 := lt_of_lt_of_le (by norm_num) h1
  have hpmsq : amNuc NL0 * amNuc NL0 ≤ 0.88280 := by nlinarith
  have hx0 : (0 : ℝ) ≤ x := by
    by_contra hx
    push_neg at hx
    have hneg : 2 * amNuc NL0 * x < 0 := by
      have := mul_pos hpm0 (neg_pos.mpr hx)
      nlinarith
    linarith
  have h2x : 2 * amNuc NL0 * x ≤ 2 * 0.93957 * x :=
    mul_le_mul_of_nonneg_right (by linarith) hx0
  linarith

set_option maxHeartbeats 2000000 in
theorem crossection_nonneg (T : SophiaTables) (x : ℝ) (NDIR : ℕ) (NL0 : ℤ)
    (hle : NDIR ≤ 19) :
    0 ≤ crossection T x NDIR NL0 := by
  unfold crossection
  by_cases hthr : sOf NL0 x < 1.1646
  · rw [if_pos hthr]
  · rw [if_neg hthr]
    have hx0149 := x_lb_of_threshold hthr
    have hx0 : (0 : ℝ) ≤ x := by linarith
    have hs0 : (0 : ℝ) ≤ sOf NL0 x := by push_neg at hthr; linarith
    have hres := cross_res_nonneg (T.forN NL0) NL0 hx0
    have hdir1 := cross_dir1_nonneg hx0
    have hdir2 := cross_dir2_nonneg x
    have hdiffr1 := crossDiffr1_nonneg NL0 x
    have hdiffr2 := crossDiffr2_nonneg NL0 x
    have hmulti := @csMulti_nonneg NL0 x
    have hfrag := @crossFrag2_nonneg NL0 x hs0
    have hdir : cross_dir x = cross_dir1 x + cross_dir2 x := rfl
    have hdf : crossDiffr NL0 x = crossDiffr1 NL0 x + crossDiffr2 NL0 x := rfl
    have hmd : csMultidiff NL0 x = csMulti NL0 x + crossDiffr NL0 x := rfl
    interval_cases NDIR <;> norm_num <;>
      first
        | exact sigRes_nonneg (T.forN NL0) NL0 hx0 _
        | linarith

set_option maxHeartbeats 2000000 in
theorem crossection_le_total (T : SophiaTables) (x : ℝ) (NDIR : ℕ) (NL0 : ℤ)
    (hle : NDIR ≤ 19) :
    crossection T x NDIR NL0 ≤ crossection T x 3 NL0 := by
  unfold crossection
  by_cases hthr : sOf NL0 x < 1.1646
  · rw [if_pos hthr, if_pos hthr]
  · rw [if_neg hthr, if_neg hthr]
    have hx0149 := x_lb_of_threshold hthr
    have hx0 : (0 : ℝ) ≤ x := by linarith
    have hs0 : (0 : ℝ) ≤ sOf NL0 x := by push_neg at hthr; linarith
    have hres := cross_res_nonneg (T.forN NL0) NL0 hx0
    have hdir1 := cross_dir1_nonneg hx0
    have hdir2 := cross_dir2_nonneg x
    have hdiffr1 := crossDiffr1_nonneg NL0 x
    have hdiffr2 := crossDiffr2_nonneg NL0 x
    have hmulti := @csMulti_nonneg NL0 x
    have hfrag := @crossFrag2_nonneg NL0 x hs0
    have hdir : cross_dir x = cross_dir1 x + cross_dir2 x := rfl
    have hdf : crossDiffr NL0 x = crossDiffr1 NL0 x + crossDiffr2 NL0 x := rfl
    have hmd : csMultidiff NL0 x = csMulti NL0 x + crossDiffr NL0 x := rfl
    interval_cases NDIR <;> norm_num <;>
      first
        | linarith
        | exact le_trans (sigRes_le_cross_res (T.forN NL0) NL0 hx0 _) (by linarith)

/-- Every threshold ratio of `dec_inter3` is at most 1: the slice is
bounded by the total, and a zero total (replaced by 1) forces every slice
to be zero. -/
theorem prob_le_one (T : SophiaTables) (x : ℝ) (NDIR : ℕ) (NL0 : ℤ) (hle : NDIR ≤ 19) :
    sophProb T x NDIR NL0 ≤ 1 := by
  unfold sophProb sophTot
  by_cases h : crossection T x 3 NL0 = 0
  · rw [if_pos h]
    have h2 := crossection_le_total T x NDIR NL0 hle
    have h3 := crossection_nonneg T x NDIR NL0 hle
    rw [h] at h2
    have h4 : crossection T x NDIR NL0 = 0 := le_antisymm h2 h3
    rw [h4]
    norm_num
  · rw [if_neg h]
    have htot_nn := crossection_nonneg T x 3 NL0 (by norm_num)
    have htot_pos : 0 < crossection T x 3 NL0 := lt_of_le_of_ne htot_nn (Ne.symm h)
    rw [div_le_one htot_pos]
    exact crossection_le_total T x NDIR NL0 hle

/-- The if-chain of `dec_inter3` computes exactly the first-threshold
selection, for arbitrary thresholds at most 1 and a draw at most 1. -/
theorem chain_select (p1 p2 p3 p4 p5 p6 rn : ℝ) (h1 : rn ≤ 1)
    (hb1 : p1 ≤ 1) (hb2 : p2 ≤ 1) (hb3 : p3 ≤ 1) (hb4 : p4 ≤ 1) (hb5 : p5 ≤ 1)
    (hb6 : p6 ≤ 1) :
    (if rn < p1 then some (6 : ℤ)
     else if p1 ≤ rn ∧ rn < p2 then some 2
     else if p2 ≤ rn ∧ rn < p3 then some 3
     else if p3 ≤ rn ∧ rn < p4 then some 1
     else if p4 ≤ rn ∧ rn < p5 then some 4
     else if p5 ≤ rn ∧ rn < p6 then some 5
     else if p6 ≤ rn ∧ rn < 1 then some 0
     else if rn = 1 then some 0
     else none) =
    some (if rn = 1 then (0 : ℤ)
     else if rn < p1 then 6
     else if rn < p2 then 2
     else if rn < p3 then 3
     else if rn < p4 then 1
     else if rn < p5 then 4
     else if rn < p6 then 5
     else 0) := by
  by_cases hrn : rn = 1
  · subst hrn
    simp only [if_neg (not_lt.mpr hb1),
      if_neg (show ¬(p1 ≤ 1 ∧ (1:ℝ) < p2) from fun h => absurd h.2 (not_lt.mpr hb2)),
      if_neg (show ¬(p2 ≤ 1 ∧ (1:ℝ) < p3) from fun h => absurd h.2 (not_lt.mpr hb3)),
      if_neg (show ¬(p3 ≤ 1 ∧ (1:ℝ) < p4) from fun h => absurd h.2 (not_lt.mpr hb4)),
      if_neg (show ¬(p4 ≤ 1 ∧ (1:ℝ) < p5) from fun h => absurd h.2 (not_lt.mpr hb5)),
      if_neg (show ¬(p5 ≤ 1 ∧ (1:ℝ) < p6) from fun h => absurd h.2 (not_lt.mpr hb6)),
      if_neg (show ¬(p6 ≤ 1 ∧ (1:ℝ) < 1) from fun h => lt_irrefl 1 h.2)]
    simp
  · have hlt : rn < 1 := lt_of_le_of_ne h1 hrn
    simp only [if_neg hrn]
    by_cases c1 : rn < p1
    · simp only [if_pos c1]
    · have hp1 := not_lt.mp c1
      simp only [if_neg c1]
      by_cases c2 : rn < p2
      · simp only [if_pos (And.intro hp1 c2), if_pos c2]
      · have hp2 := not_lt.mp c2
        simp only [if_neg (show ¬(p1 ≤ rn ∧ rn < p2) from fun h => c2 h.2), if_neg c2]
        by_cases c3 : rn < p3
        · simp only [if_pos (And.intro hp2 c3), if_pos c3]
        · have hp3 := not_lt.mp c3
          simp only [if_neg (show ¬(p2 ≤ rn ∧ rn < p3) from fun h => c3 h.2), if_neg c3]
          by_cases c4 : rn < p4
          · simp only [if_pos (And.intro hp3 c4), if_pos c4]
          · have hp4 := not_lt.mp c4
            simp only [if_neg (show ¬(p3 ≤ rn ∧ rn < p4) from fun h => c4 h.2), if_neg c4]
            by_cases c5 : rn < p5
            · simp only [if_pos (And.intro hp4 c5), if_pos c5]
            · have hp5 := not_lt.mp c5
              simp only [if_neg (show ¬(p4 ≤ rn ∧ rn < p5) from fun h => c5 h.2),
                if_neg c5]
              by_cases c6 : rn < p6
              · simp only [if_pos (And.intro hp5 c6), if_pos c6]
              · have hp6 := not_lt.mp c6
                simp only [if_neg (show ¬(p5 ≤ rn ∧ rn < p6) from fun h => c6 h.2),
                  if_neg c6, if_pos (And.intro hp6 hlt)]

/-- Claim C2: for every photon energy, nucleon type 13 or 14 and uniform
draw in the unit interval, `dec_inter3` returns (without throwing) the
mode of the first cumulative threshold the draw falls under, in the order
resonance, direct N-pi, direct Delta-pi, diffractive rho, diffractive
omega, low-energy fragmentation, multipion fallback; a draw of exactly 1
yields the multipion mode; a zero total cross section is replaced by 1 so
that no division error can occur. -/
theorem c2_dec_inter3_spec (T : SophiaTables) (epsPrime : ℝ) (L0 : ℤ) (rn : ℝ)
    (_hL : L0 = 13 ∨ L0 = 14) (_h0 : 0 ≤ rn) (h1 : rn ≤ 1) :
    dec_inter3 T epsPrime L0 rn = some (decInter3Spec T epsPrime L0 rn) := by
  unfold dec_inter3 decInter3Spec
  exact chain_select _ _ _ _ _ _ rn h1
    (prob_le_one T epsPrime 1 L0 (by norm_num))
    (prob_le_one T epsPrime 7 L0 (by norm_num))
    (prob_le_one T epsPrime 2 L0 (by norm_num))
    (prob_le_one T epsPrime 8 L0 (by norm_num))
    (prob_le_one T epsPrime 9 L0 (by norm_num))
    (prob_le_one T epsPrime 0 L0 (by norm_num))

theorem c2_witness :
    dec_inter3 trivialTables 1 13 (1 / 2) =
      some (decInter3Spec trivialTables 1 13 (1 / 2)) :=
  c2_dec_inter3_spec trivialTables 1 13 (1 / 2) (Or.inl rfl) (by norm_num) (by norm_num)

/-- Claim C3: for every valid input (positive photon energy, nucleon type
13 or 14), every channel slice of `crossection` is nonnegative after the
`cs_delta` clamping and redistribution, and the total slice (NDIR = 3)
dominates every other slice (NDIR = 0..2, 4..19). -/
theorem c3_crossection_order (T : SophiaTables) (x : ℝ) (NDIR : ℕ) (NL0 : ℤ)
    (_hL : NL0 = 13 ∨ NL0 = 14) (_hx : 0 < x) (hle : NDIR ≤ 19) :
    0 ≤ crossection T x NDIR NL0 ∧
      (NDIR ≠ 3 → crossection T x NDIR NL0 ≤ crossection T x 3 NL0) :=
  ⟨crossection_nonneg T x NDIR NL0 hle, fun _ => crossection_le_total T x NDIR NL0 hle⟩

theorem c3_witness :
    0 ≤ crossection trivialTables 1 0 13 ∧
      ((0 : ℕ) ≠ 3 → crossection trivialTables 1 0 13 ≤ crossection trivialTables 1 3 13) :=
  c3_crossection_order trivialTables 1 0 13 (Or.inl rfl) (by norm_num) (by norm_num)

/-! ### Invariant-mass sampling: functs, gaussInt, sample_s
(lines 2011-2082) -/

/-- `functs` (lines 2075-2082): the integrand `(s - pm^2) * sigma_total`
with the literal proton mass of the source. -/
noncomputable def functs (T : SophiaTables) (s : ℝ) (L0 : ℤ) : ℝ :=
  (s - 0.93827 * 0.93827) *
    crossection T ((s - 0.93827 * 0.93827) / 2 / 0.93827) 3 L0

/-- Modelled from the spec: `gaussInt` (declared in the missing header)
numerically integrates its argument over `[a, b]`; it is modelled as a
fixed Gauss quadrature rule -- interior nodes given as fractions of the
interval, positive weights -- applied to the integrand. -/
structure QuadRule where
  pts : List (ℝ × ℝ)
  frac_mem : ∀ p ∈ pts, 0 ≤ p.1 ∧ p.1 ≤ 1
  w_pos : ∀ p ∈ pts, 0 < p.2

/-- The quadrature value of `f` over `[a, b]` under rule `R`. -/
noncomputable def gaussInt (R : QuadRule) (f : ℝ → ℝ) (a b : ℝ) : ℝ :=
  (b - a) * ((R.pts.map fun p => p.2 * f (a + p.1 * (b - a))).sum)

/-- The one-point Gauss-Legendre rule (midpoint, weight 1). -/
noncomputable def gl1 : QuadRule :=
  { pts := [((1 : ℝ) / 2, (1 : ℝ))]
    frac_mem := by
      intro p hp
      rw [List.mem_singleton] at hp
      subst hp
      constructor <;> norm_num
    w_pos := by
      intro p hp
      rw [List.mem_singleton] at hp
      subst hp
      norm_num }

/-- The local `smax` of `sample_s` (lines 2020-2023):
`max(smin, xmp^2 + 2 eps (Ein + Pp))` with `Pp = sqrt(Ein^2 - xmp^2)`. -/
noncomputable def sampleSmax (eps : ℝ) (L0 : ℤ) (Ein : ℝ) : ℝ :=
  max 1.1646
    (amNuc L0 * amNuc L0 +
      2 * eps * (Ein + Real.sqrt (Ein * Ein - amNuc L0 * amNuc L0)))

/-- The rejection loop of `sample_s` (lines 2044-2059).  `fuel` counts the
attempts still allowed before the `i_rept >= 100000` early return fires;
`idx` is the position in the random stream; the third argument is the
current value of the local `s`, returned unchanged when the cap is hit. -/
noncomputable def sampleSRejLoop (T : SophiaTables) (stream : ℕ → ℝ) (L0 : ℤ)
    (smin smax pmax sintegr1 : ℝ) : ℕ → ℕ → ℝ → ℝ
  | 0, _, s => s
  | fuel + 1, idx, _ =>
    if stream (idx + 1) * pmax >
        functs T (smin + stream idx * (smax - smin)) L0 / sintegr1 then
      sampleSRejLoop T stream L0 smin smax pmax sintegr1 fuel (idx + 2)
        (smin + stream idx * (smax - smin))
    else smin + stream idx * (smax - smin)

/-- `sample_s` (lines 2011-2073): degenerate-range early return, then
either the rejection method (always when `smax <= s0 = 10`, with
probability `sintegr1/(sintegr1+sintegr2)` otherwise) or the analytic
inversion with exponent `beta = 2.04`. -/
noncomputable def sample_s (T : SophiaTables) (R : QuadRule) (stream : ℕ → ℝ)
    (eps : ℝ) (L0 : ℤ) (Ein : ℝ) : ℝ :=
  if sampleSmax eps L0 Ein - 1.1646 ≤ 1e-8 then 1.1646 + stream 0 * 1e-6
  else if sampleSmax eps L0 Ein ≤ 10 then
    sampleSRejLoop T stream L0 1.1646 (sampleSmax eps L0 Ein)
      (1300 / gaussInt R (fun s => functs T s L0) 1.1646 10)
      (gaussInt R (fun s => functs T s L0) 1.1646 10) 100000 0 0
  else if stream 0 ≤ gaussInt R (fun s => functs T s L0) 1.1646 10 /
      (gaussInt R (fun s => functs T s L0) 1.1646 10 +
        gaussInt R (fun s => functs T s L0) 10 (sampleSmax eps L0 Ein)) then
    sampleSRejLoop T stream L0 1.1646 (sampleSmax eps L0 Ein)
      (1300 / gaussInt R (fun s => functs T s L0) 1.1646 10)
      (gaussInt R (fun s => functs T s L0) 1.1646 10) 100000 1 0
  else
    (stream 1 * sampleSmax eps L0 Ein ^ (2.04 : ℝ) -
      (stream 1 - 1) * (10 : ℝ) ^ (2.04 : ℝ)) ^ ((1 : ℝ) / 2.04)

/-! ### The event-level driver: eventgen and sophiaevent
(lines 67-122 and 124-322)

Only the prelude up to the threshold check is embedded; everything after
it (process selection, particle production, the filter to stable entries
and the boost to the lab frame) is a stochastic pipeline abstracted into
an explicit `production` continuation, since the claims about the driver
concern only the below-threshold path, which returns before any of it
runs.  The pure rotation/boost quantities the prelude computes (lines
189-232) have no observable effect on that path and are omitted. -/

/-- The part of an event record the driver claims are about: the particle
count `np`. -/
structure EventgenResult where
  np : ℕ
  deriving DecidableEq

/-- The invariant mass computed by the `eventgen` prelude (lines 176-186),
with the literal `pi = 3.1415926` of `eventgen`. -/
noncomputable def eventgenS (L0 : ℤ) (E0 eps theta : ℝ) : ℝ :=
  amNuc L0 * amNuc L0 +
    2 * eps * E0 *
      (1 -
        (if E0 / amNuc L0 > 1000 then
          1 - 0.5 * (1 / (E0 / amNuc L0)) * (1 / (E0 / amNuc L0)) -
            0.125 * (1 / (E0 / amNuc L0)) * (1 / (E0 / amNuc L0)) *
              (1 / (E0 / amNuc L0)) * (1 / (E0 / amNuc L0))
        else
          Real.sqrt (1 - 1 / (E0 / amNuc L0)) * Real.sqrt (1 + 1 / (E0 / amNuc L0))) *
        Real.cos (theta * 3.1415926 / 180))

/-- `eventgen` (lines 124-322): below the photopion threshold
`sth = 1.1646` the particle count is zeroed and the routine returns
without error (lines 234-241); otherwise the production stage runs. -/
noncomputable def eventgen
    (production : ℤ → ℝ → ℝ → ℝ → Except String EventgenResult)
    (L0 : ℤ) (E0 eps theta : ℝ) : Except String EventgenResult :=
  if eventgenS L0 E0 eps theta < 1.1646 then .ok ⟨0⟩
  else production L0 E0 eps theta

/-- `sophiaevent` (lines 67-122): sets the pion stability flags, samples
`s`, derives the photon angle `theta` (clamped to 0 or 180 when the
cosine leaves the unit interval, with the literal `pi = 3.141592653` of
`sophiaevent`), runs `eventgen`, and copies out the `np` entries. -/
noncomputable def sophiaevent
    (production : ℤ → ℝ → ℝ → ℝ → Except String EventgenResult)
    (R : QuadRule) (stream : ℕ → ℝ) (onProton : Bool) (Ein eps : ℝ)
    (declareChargedPionsStable : Bool) (idb : ℕ → ℤ) (T : SophiaTables) :
    Except String EventgenResult × (ℕ → ℤ) :=
  let idb1 := applyPionStableFlag declareChargedPionsStable idb
  let L0 : ℤ := if onProton then 13 else 14
  let s := sample_s T R stream eps L0 Ein
  let t0 := ((amNuc L0 * amNuc L0 - s) / 2 / eps + Ein) /
    Real.sqrt (Ein * Ein - amNuc L0 * amNuc L0)
  let theta := if t0 > 1 then (0 : ℝ)
    else if t0 < -1 then 180
    else Real.arccos t0 * 180 / 3.141592653
  (eventgen production L0 Ein eps theta, idb1)

theorem amNuc_13 : amNuc 13 = 0.93827 := by
  unfold amNuc
  norm_num

/-- The `eventgen` prelude mass is below threshold whenever
`pm^2 + 4 eps E0` is, because the velocity factor `betap` lies in the
unit interval. -/
theorem eventgenS_le {L0 : ℤ} {E0 eps theta : ℝ} (heps : 0 ≤ eps) (hE0 : 0 ≤ E0) :
    eventgenS L0 E0 eps theta ≤ amNuc L0 * amNuc L0 + 4 * eps * E0 := by
  unfold eventgenS
  have hcos1 := Real.cos_le_one (theta * 3.1415926 / 180)
  have hcos2 := Real.neg_one_le_cos (theta * 3.1415926 / 180)
  set c := Real.cos (theta * 3.1415926 / 180)
  set xx := 1 / (E0 / amNuc L0) with hxx
  split
  · rename_i hgam
    -- betap = 1 - xx^2/2 - xx^4/8 with 0 < xx < 1/1000
    have hpm := amNuc_bounds L0
    have hxx0 : 0 < xx := by
      rw [hxx]
      have : (0 : ℝ) < E0 / amNuc L0 := lt_trans (by norm_num) hgam
      positivity
    have hxx1 : xx < 1 := by
      rw [hxx]
      rw [div_lt_one (lt_trans (by norm_num) hgam)]
      linarith
    have hx2 : xx * xx ≤ 1 := by nlinarith
    have hx2n : 0 ≤ xx * xx := mul_nonneg hxx0.le hxx0.le
    have hx4 : xx * xx * xx * xx ≤ 1 := by nlinarith
    have hx4n : 0 ≤ xx * xx * xx * xx := by positivity
    have hb0 : 0 ≤ 1 - 0.5 * xx * xx - 0.125 * xx * xx * xx * xx := by linarith
    have hb1 : 1 - 0.5 * xx * xx - 0.125 * xx * xx * xx * xx ≤ 1 := by linarith
    have hprod : -(1 : ℝ) ≤ (1 - 0.5 * xx * xx - 0.125 * xx * xx * xx * xx) * c := by
      nlinarith
    have heE : 0 ≤ 2 * eps * E0 := by positivity
    nlinarith
  · have hsq0 : 0 ≤ Real.sqrt (1 - xx) * Real.sqrt (1 + xx) :=
      mul_nonneg (Real.sqrt_nonneg _) (Real.sqrt_nonneg _)
    have hsq1 : Real.sqrt (1 - xx) * Real.sqrt (1 + xx) ≤ 1 := by
      by_cases hx1 : 1 - xx < 0
      · rw [Real.sqrt_eq_zero_of_nonpos hx1.le]
        linarith [Real.sqrt_nonneg (1 + xx)]
      · push_neg at hx1
        rw [← Real.sqrt_mul (by linarith) (1 + xx)]
        have harg : (1 - xx) * (1 + xx) ≤ 1 := by nlinarith [mul_self_nonneg xx]
        calc Real.sqrt ((1 - xx) * (1 + xx)) ≤ Real.sqrt 1 :=
              Real.sqrt_le_sqrt harg
          _ = 1 := Real.sqrt_one
    have hprod : -(1 : ℝ) ≤ Real.sqrt (1 - xx) * Real.sqrt (1 + xx) * c := by
      nlinarith
    have heE : 0 ≤ 2 * eps * E0 := by positivity
    nlinarith

/-- Claim C5: an invariant mass below the photopion threshold is a
non-error empty event: the threshold branch of `eventgen` returns zero
particles with no error for every input below threshold, and in the
scenario `onProton = true, Ein = 1 GeV, eps = 0.0001 GeV` the whole
`sophiaevent` call yields count 0 and no error, for every production
continuation, quadrature rule, random stream, flag value and table. -/
theorem c5_subthreshold_empty :
    (∀ (production : ℤ → ℝ → ℝ → ℝ → Except String EventgenResult)
      (L0 : ℤ) (E0 eps theta : ℝ),
      eventgenS L0 E0 eps theta < 1.1646 →
      eventgen production L0 E0 eps theta = .ok ⟨0⟩) ∧
    (∀ (production : ℤ → ℝ → ℝ → ℝ → Except String EventgenResult)
      (R : QuadRule) (stream : ℕ → ℝ) (flag : Bool) (idb : ℕ → ℤ) (T : SophiaTables),
      (sophiaevent production R stream true 1 0.0001 flag idb T).1 = .ok ⟨0⟩) := by
  constructor
  · intro production L0 E0 eps theta h
    unfold eventgen
    rw [if_pos h]
  · intro production R stream flag idb T
    show eventgen production (if true then (13 : ℤ) else 14) 1 0.0001 _ = .ok ⟨0⟩
    have hlt : ∀ theta : ℝ, eventgenS 13 1 0.0001 theta < 1.1646 := by
      intro theta
      have h := @eventgenS_le 13 1 0.0001 theta
        (by norm_num) (by norm_num)
      rw [amNuc_13] at h
      norm_num at h ⊢
      linarith
    unfold eventgen
    exact if_pos (hlt _)

/-! ### Claim C4: the rejection-sampling cap of sample_s -/

/-- `x = epsprime` as `functs` computes it from `s` inverts `sOf` at the
proton mass. -/
theorem sOf_13_inv (s : ℝ) :
    sOf 13 ((s - 0.93827 * 0.93827) / 2 / 0.93827) = s := by
  unfold sOf
  rw [amNuc_13]
  field_simp

/-- With all normalizations zero, the resonance coupling vanishes. -/
theorem sig0_trivial (NL0 : ℤ) (i : Fin 9) :
    sig0 (trivialTables.forN NL0) NL0 i = 0 := by
  unfold sig0 trivialTables SophiaTables.forN
  split <;> simp

/-- A vanishing peak cross section kills the whole Breit-Wigner factor. -/
theorem breitwigner_zero (Gamma DMM epsPrime : ℝ) :
    breitwigner 0 Gamma DMM epsPrime = 0 := by
  unfold breitwigner
  simp

/-- The trivial tables give a vanishing resonance sum. -/
theorem cross_res_trivial (NL0 : ℤ) (x : ℝ) :
    cross_res (trivialTables.forN NL0) NL0 x = 0 := by
  unfold cross_res
  apply Finset.sum_eq_zero
  intro i _
  unfold sigRes
  split
  · rw [sig0_trivial, breitwigner_zero, zero_mul]
  · rfl

/-- The `NDIR = 3` slice of `crossection` above threshold. -/
theorem crossection_three (T : SophiaTables) (x : ℝ) (NL0 : ℤ)
    (h : ¬ sOf NL0 x < 1.1646) :
    crossection T x 3 NL0 =
      cross_res (T.forN NL0) NL0 x + cross_dir x + csMultidiff NL0 x +
        crossFrag2 NL0 x := by
  unfold crossection
  rw [if_neg h]
  norm_num

/-- On the narrow band of invariant masses `1.1646 <= s <= 1.16521` the
total cross section at the trivial tables reduces to the direct bump
terms alone: `x` lies below every other channel threshold there. -/
theorem functs_sliver (s : ℝ) (h1 : 1.1646 ≤ s) (h2 : s ≤ 1.16521) :
    functs trivialTables s 13 =
      (s - 0.93827 * 0.93827) *
        (40 * Real.exp (-((s - 0.93827 * 0.93827) / 2 / 0.93827 - 0.29) *
            ((s - 0.93827 * 0.93827) / 2 / 0.93827 - 0.29) / 0.002) -
          15 * Real.exp (-((s - 0.93827 * 0.93827) / 2 / 0.93827 - 0.37) *
            ((s - 0.93827 * 0.93827) / 2 / 0.93827 - 0.37) / 0.002)) := by
  have hxlo : (0.1514 : ℝ) ≤ (s - 0.93827 * 0.93827) / 2 / 0.93827 := by
    rw [div_div, le_div_iff (by norm_num)]
    nlinarith
  have hxhi : (s - 0.93827 * 0.93827) / 2 / 0.93827 ≤ 0.15181 := by
    rw [div_div, div_le_iff (by norm_num)]
    nlinarith
  unfold functs
  congr 1
  rw [crossection_three _ _ _ (by rw [sOf_13_inv]; linarith)]
  set X := (s - 0.93827 * 0.93827) / 2 / 0.93827 with hX
  rw [cross_res_trivial]
  have hd1 : cross_dir1 X =
      40 * Real.exp (-(X - 0.29) * (X - 0.29) / 0.002) -
        15 * Real.exp (-(X - 0.37) * (X - 0.37) / 0.002) := by
    unfold cross_dir1
    rw [if_pos (by linarith), if_pos ⟨by linarith, by linarith⟩]
    unfold singleback Pl
    rw [if_pos (by linarith : (0.152 : ℝ) > X)]
    ring
  have hd2 : cross_dir2 X = 0 := by
    unfold cross_dir2 twoback Pl
    rw [if_pos (by linarith : X ≤ (10 : ℝ)), if_pos (by linarith : (0.4 : ℝ) > X)]
    ring
  have hmd : csMultidiff 13 X = 0 := by
    unfold csMultidiff csMulti crossDiffr crossDiffr1 crossDiffr2
    rw [if_neg (by linarith : ¬ (0.85 : ℝ) < X), if_neg (by linarith : ¬ (0.85 : ℝ) < X),
      if_neg (by linarith : ¬ (0.85 : ℝ) < X)]
    ring
  have hf2 : crossFrag2 13 X = 0 := by
    unfold crossFrag2 crossFrag2Pre Ef
    rw [if_neg (by linarith : ¬ (0.85 : ℝ) < X), if_pos (by linarith : X ≤ (0.5 : ℝ))]
    ring
  unfold cross_dir
  rw [hd1, hd2, hmd, hf2]
  ring

/-- The midpoint rule evaluates the `sintegr1` integral of `sample_s` at
the single node `s = 5.5823`. -/
theorem c4_I1_eq :
    gaussInt gl1 (fun s => functs trivialTables s 13) 1.1646 10 =
      8.8354 * functs trivialTables 5.5823 13 := by
  unfold gaussInt gl1
  simp only [List.map_cons, List.map_nil, List.sum_cons, List.sum_nil]
  norm_num

/-- The integrand is strictly positive at the quadrature node: there the
direct single-pion background channel is open. -/
theorem c4_node_pos : 0 < functs trivialTables 5.5823 13 := by
  unfold functs
  have hX5lo : (2.5 : ℝ) ≤ (5.5823 - 0.93827 * 0.93827) / 2 / 0.93827 := by
    rw [div_div, le_div_iff (by norm_num)]
    norm_num
  have hX5hi : (5.5823 - 0.93827 * 0.93827 : ℝ) / 2 / 0.93827 ≤ 2.51 := by
    rw [div_div, div_le_iff (by norm_num)]
    norm_num
  apply mul_pos (by norm_num)
  rw [crossection_three _ _ _ (by rw [sOf_13_inv]; norm_num)]
  set X : ℝ := (5.5823 - 0.93827 * 0.93827) / 2 / 0.93827 with hX
  clear_value X
  rw [cross_res_trivial]
  have hd1 : 0 < cross_dir1 X := by
    unfold cross_dir1
    rw [if_pos (by linarith), if_neg (by push_neg; intro; linarith)]
    unfold singleback
    have := @Pl_pos X 0.152 0.25 2 (by norm_num : (0:ℝ) < 0.152)
      (by norm_num : (0.152:ℝ) < 0.25) (by linarith)
    linarith
  have hd2 := cross_dir2_nonneg X
  have hmd := @csMultidiff_nonneg 13 X
  have hf2 := @crossFrag2_nonneg 13 X (by rw [hX, sOf_13_inv]; norm_num)
  unfold cross_dir
  linarith

/-- The sampling integral `sintegr1` is positive at the witness inputs. -/
theorem c4_I1_pos :
    0 < gaussInt gl1 (fun s => functs trivialTables s 13) 1.1646 10 := by
  rw [c4_I1_eq]
  have := c4_node_pos
  linarith

/-- `smax` at the counterexample kinematics `eps = 0.1518 GeV`,
`Ein = 0.93827 GeV` (a proton at rest). -/
theorem c4_smax : sampleSmax 0.1518 13 0.93827 = 1.1652093649 := by
  unfold sampleSmax
  rw [amNuc_13]
  rw [show (0.93827 * 0.93827 - 0.93827 * 0.93827 : ℝ) = 0 by ring, Real.sqrt_zero]
  rw [max_eq_right (by norm_num)]
  norm_num

/-- The density is uniformly below the acceptance level `650` on the whole
candidate band of the counterexample kinematics. -/
theorem c4_functs_lt (r : ℝ) (h0 : 0 ≤ r) (h1 : r ≤ 1) :
    functs trivialTables (1.1646 + r * 0.0006093649) 13 < 650 := by
  have hs1 : (1.1646 : ℝ) ≤ 1.1646 + r * 0.0006093649 := by nlinarith
  have hs2 : 1.1646 + r * 0.0006093649 ≤ 1.16521 := by nlinarith
  rw [functs_sliver _ hs1 hs2]
  set X := (1.1646 + r * 0.0006093649 - 0.93827 * 0.93827) / 2 / 0.93827 with hX
  clear_value X
  have hA : Real.exp (-(X - 0.29) * (X - 0.29) / 0.002) ≤ 1 := by
    rw [Real.exp_le_one_iff]
    apply div_nonpos_of_nonpos_of_nonneg _ (by norm_num)
    nlinarith [mul_self_nonneg (X - 0.29)]
  have hA0 : 0 < Real.exp (-(X - 0.29) * (X - 0.29) / 0.002) := Real.exp_pos _
  have hB : 0 < Real.exp (-(X - 0.37) * (X - 0.37) / 0.002) := Real.exp_pos _
  have hc0 : (0 : ℝ) ≤ 1.1646 + r * 0.0006093649 - 0.93827 * 0.93827 := by nlinarith
  have hc1 : 1.1646 + r * 0.0006093649 - 0.93827 * 0.93827 ≤ 0.2849 := by nlinarith
  nlinarith [mul_le_of_le_one_right hc0 hA, mul_nonneg hc0 hB.le]

/-- Exhausting the cap: if every one of the `fuel` remaining attempts is
rejected, the loop returns the candidate drawn on the final attempt. -/
theorem sampleSRejLoop_all_reject (T : SophiaTables) (stream : ℕ → ℝ) (L0 : ℤ)
    (smin smax pmax sintegr1 : ℝ) :
    ∀ (fuel idx : ℕ) (s : ℝ), 0 < fuel →
      (∀ j, j < fuel →
        stream (idx + 2 * j + 1) * pmax >
          functs T (smin + stream (idx + 2 * j) * (smax - smin)) L0 / sintegr1) →
      sampleSRejLoop T stream L0 smin smax pmax sintegr1 fuel idx s =
        smin + stream (idx + 2 * (fuel - 1)) * (smax - smin) := by
  intro fuel
  induction fuel with
  | zero => intro idx s h _; exact absurd h (lt_irrefl 0)
  | succ n ih =>
    intro idx s _ hrej
    rw [sampleSRejLoop]
    have h0 := hrej 0 (Nat.succ_pos n)
    rw [show idx + 2 * 0 = idx by ring] at h0
    rw [if_pos h0]
    cases n with
    | zero =>
      rw [sampleSRejLoop]
      norm_num
    | succ m =>
      have hsh : ∀ j, j < m + 1 →
          stream (idx + 2 + 2 * j + 1) * pmax >
            functs T (smin + stream (idx + 2 + 2 * j) * (smax - smin)) L0 /
              sintegr1 := by
        intro j hj
        have h := hrej (j + 1) (by omega)
        rw [show idx + 2 * (j + 1) = idx + 2 + 2 * j by ring] at h
        exact h
      rw [ih (idx + 2) _ (Nat.succ_pos m) hsh]
      rw [show idx + 2 + 2 * (m + 1 - 1) = idx + 2 * (m + 2 - 1) by omega]

set_option maxHeartbeats 1000000 in
/-- Claim C4 (amended): `sample_s` proposes candidates uniformly on
`[smin, smax]` and accepts by comparing a second draw against the scaled
density `functs`; the loop is capped at 100000 attempts, and when every
attempt is rejected it exits returning the candidate of the final
iteration -- the most recently sampled value, not the best candidate
found (which the routine never tracks).  Stated for the rejection branch
`smax <= 10`. -/
theorem c4_sample_s_cap_most_recent (T : SophiaTables) (R : QuadRule)
    (stream : ℕ → ℝ) (eps : ℝ) (L0 : ℤ) (Ein : ℝ)
    (hgap : ¬ sampleSmax eps L0 Ein - 1.1646 ≤ 1e-8)
    (hle10 : sampleSmax eps L0 Ein ≤ 10)
    (hrej : ∀ j, j < 100000 →
      stream (2 * j + 1) * (1300 / gaussInt R (fun s => functs T s L0) 1.1646 10) >
        functs T (1.1646 + stream (2 * j) * (sampleSmax eps L0 Ein - 1.1646)) L0 /
          gaussInt R (fun s => functs T s L0) 1.1646 10) :
    sample_s T R stream eps L0 Ein =
      1.1646 + stream 199998 * (sampleSmax eps L0 Ein - 1.1646) := by
  unfold sample_s
  rw [if_neg hgap, if_pos hle10]
  have key := sampleSRejLoop_all_reject T stream L0 1.1646 (sampleSmax eps L0 Ein)
    (1300 / gaussInt R (fun s => functs T s L0) 1.1646 10)
    (gaussInt R (fun s => functs T s L0) 1.1646 10) 100000 0 0 (by norm_num)
    (by
      intro j hj
      have h := hrej j hj
      rw [show 0 + 2 * j = 2 * j by ring]
      exact h)
  rw [key]

/-- The counterexample random stream: first proposal draw 0.9, every
later draw 0.5. -/
noncomputable def c4Stream : ℕ → ℝ := fun n => if n = 0 then 0.9 else 0.5

/-- All 100000 attempts of the counterexample run are rejected. -/
theorem c4_hrej : ∀ j, j < 100000 →
    c4Stream (2 * j + 1) *
        (1300 / gaussInt gl1 (fun s => functs trivialTables s 13) 1.1646 10) >
      functs trivialTables
          (1.1646 + c4Stream (2 * j) * (sampleSmax 0.1518 13 0.93827 - 1.1646)) 13 /
        gaussInt gl1 (fun s => functs trivialTables s 13) 1.1646 10 := by
  intro j _
  have hI := c4_I1_pos
  set I1 := gaussInt gl1 (fun s => functs trivialTables s 13) 1.1646 10 with hI1
  have hodd : c4Stream (2 * j + 1) = 0.5 := by
    unfold c4Stream
    rw [if_neg (by omega)]
  rw [hodd, c4_smax]
  rw [show (1.1652093649 - 1.1646 : ℝ) = 0.0006093649 by norm_num]
  have hlt : functs trivialTables (1.1646 + c4Stream (2 * j) * 0.0006093649) 13 < 650 := by
    unfold c4Stream
    split
    · exact c4_functs_lt 0.9 (by norm_num) (by norm_num)
    · exact c4_functs_lt 0.5 (by norm_num) (by norm_num)
  rw [gt_iff_lt, show (0.5 : ℝ) * (1300 / I1) = 650 / I1 by ring, div_lt_div_iff_of_pos_right hI]
  exact hlt

theorem c4_hgap : ¬ sampleSmax 0.1518 13 0.93827 - 1.1646 ≤ 1e-8 := by
  rw [c4_smax]
  norm_num

theorem c4_hle10 : sampleSmax 0.1518 13 0.93827 ≤ 10 := by
  rw [c4_smax]
  norm_num

theorem c4_witness :
    sample_s trivialTables gl1 c4Stream 0.1518 13 0.93827 =
      1.1646 + c4Stream 199998 * (sampleSmax 0.1518 13 0.93827 - 1.1646) :=
  c4_sample_s_cap_most_recent trivialTables gl1 c4Stream 0.1518 13 0.93827
    c4_hgap c4_hle10 c4_hrej

/-- The same run, established directly from the loop lemma (for the
counterexample). -/
theorem c4_run :
    sample_s trivialTables gl1 c4Stream 0.1518 13 0.93827 =
      1.1646 + c4Stream 199998 * (sampleSmax 0.1518 13 0.93827 - 1.1646) := by
  unfold sample_s
  rw [if_neg c4_hgap, if_pos c4_hle10]
  have key := sampleSRejLoop_all_reject trivialTables c4Stream 13 1.1646
    (sampleSmax 0.1518 13 0.93827)
    (1300 / gaussInt gl1 (fun s => functs trivialTables s 13) 1.1646 10)
    (gaussInt gl1 (fun s => functs trivialTables s 13) 1.1646 10) 100000 0 0
    (by norm_num)
    (by
      intro j hj
      have h := c4_hrej j hj
      rw [show 0 + 2 * j = 2 * j by ring]
      exact h)
  rw [key]

/-- The first candidate of the run carries a strictly larger density than
the final (returned) one. -/
theorem c4_functs_compare :
    functs trivialTables 1.16514842841 13 > functs trivialTables 1.16490468245 13 := by
  rw [functs_sliver 1.16514842841 (by norm_num) (by norm_num),
    functs_sliver 1.16490468245 (by norm_num) (by norm_num)]
  set X1 : ℝ := (1.16514842841 - 0.93827 * 0.93827) / 2 / 0.93827 with hX1
  set Xc : ℝ := (1.16490468245 - 0.93827 * 0.93827) / 2 / 0.93827 with hXc
  set A1 := -(X1 - 0.29) * (X1 - 0.29) / 0.002 with hA1
  set B1 := -(X1 - 0.37) * (X1 - 0.37) / 0.002 with hB1
  set Ac := -(Xc - 0.29) * (Xc - 0.29) / 0.002 with hAc
  set Bc := -(Xc - 0.37) * (Xc - 0.37) / 0.002 with hBc
  clear_value A1 B1 Ac Bc
  clear_value X1 Xc
  have hd : (0.0179 : ℝ) ≤ A1 - Ac := by
    rw [hA1, hAc, hX1, hXc]
    norm_num
  have hb5 : B1 - Ac ≤ -5 := by
    rw [hB1, hAc, hX1, hXc]
    norm_num
  have hEA : 0 < Real.exp Ac := Real.exp_pos _
  have he1 : Real.exp Ac * 1.0179 ≤ Real.exp A1 := by
    have h2 : (1.0179 : ℝ) ≤ Real.exp (A1 - Ac) := by
      have := Real.add_one_le_exp (A1 - Ac)
      linarith
    calc Real.exp Ac * 1.0179 ≤ Real.exp Ac * Real.exp (A1 - Ac) :=
          mul_le_mul_of_nonneg_left h2 hEA.le
      _ = Real.exp A1 := by
          rw [← Real.exp_add]
          ring_nf
  have he2 : Real.exp B1 ≤ Real.exp Ac * (1 / 143) := by
    have h2 : Real.exp (B1 - Ac) ≤ 1 / 143 := by
      have h3 : Real.exp (B1 - Ac) ≤ Real.exp (-(5 : ℝ)) :=
        Real.exp_le_exp.mpr (by linarith)
      have h4 : Real.exp (-(5 : ℝ)) ≤ 1 / 143 := by
        have := exp_neg_le_inv 5 143 (by norm_num) exp_five_ge
        rw [one_div]
        exact this
      linarith
    calc Real.exp B1 = Real.exp Ac * Real.exp (B1 - Ac) := by
          rw [← Real.exp_add]
          ring_nf
      _ ≤ Real.exp Ac * (1 / 143) := mul_le_mul_of_nonneg_left h2 hEA.le
  have hBc : 0 < Real.exp Bc := Real.exp_pos _
  nlinarith [mul_le_mul_of_nonneg_left he1
      (by norm_num : (0 : ℝ) ≤ 40 * (1.16514842841 - 0.93827 * 0.93827)),
    mul_le_mul_of_nonneg_left he2
      (by norm_num : (0 : ℝ) ≤ 15 * (1.16514842841 - 0.93827 * 0.93827)),
    mul_pos (by norm_num : (0 : ℝ) < 15 * (1.16490468245 - 0.93827 * 0.93827)) hBc,
    hEA]

set_option maxHeartbeats 1000000 in
/-- Claim C4, counterexample to the "best candidate found" wording: in
this concrete all-rejected run the routine returns the candidate of the
last iteration although the candidate of the first iteration -- a value
it sampled and discarded -- has a strictly larger target density
`functs`.  The returned value is therefore not the best candidate found. -/
theorem c4_counterexample :
    sample_s trivialTables gl1 c4Stream 0.1518 13 0.93827 =
      1.1646 + c4Stream 199998 * (sampleSmax 0.1518 13 0.93827 - 1.1646) ∧
    functs trivialTables
        (1.1646 + c4Stream 0 * (sampleSmax 0.1518 13 0.93827 - 1.1646)) 13 >
      functs trivialTables
        (1.1646 + c4Stream 199998 * (sampleSmax 0.1518 13 0.93827 - 1.1646)) 13 ∧
    1.1646 + c4Stream 0 * (sampleSmax 0.1518 13 0.93827 - 1.1646) ≠
      1.1646 + c4Stream 199998 * (sampleSmax 0.1518 13 0.93827 - 1.1646) := by
  have hs0 : c4Stream 0 = 0.9 := by
    unfold c4Stream
    rw [if_pos rfl]
  have hsl : c4Stream 199998 = 0.5 := by
    unfold c4Stream
    rw [if_neg (by omega)]
  refine ⟨c4_run, ?_, ?_⟩
  · rw [hs0, hsl, c4_smax]
    rw [show (1.1646 : ℝ) + 0.9 * (1.1652093649 - 1.1646) = 1.16514842841 by norm_num,
      show (1.1646 : ℝ) + 0.5 * (1.1652093649 - 1.1646) = 1.16490468245 by norm_num]
    exact c4_functs_compare
  · rw [hs0, hsl, c4_smax]
    norm_num

/-- A below-threshold input for the first part of claim C5: the scenario
itself, evaluated at angle 0. -/
theorem c5_witness :
    eventgen (fun _ _ _ _ => .error "production stage") 13 1 0.0001 0 = .ok ⟨0⟩ :=
  c5_subthreshold_empty.1 (fun _ _ _ _ => .error "production stage") 13 1 0.0001 0
    (by
      have h := @eventgenS_le 13 1 0.0001 0
        (by norm_num) (by norm_num)
      rw [amNuc_13] at h
      norm_num at h ⊢
      linarith)

end Sophia
